import Mathlib

/-!
Shallow embedding of the Rug-Pull-Simulator core engine
(`src/core/ChartGenerator.js`, `src/core/InvestmentManager.js`,
`src/core/BalanceManager.js`, `src/core/GameController.js`).

JavaScript numbers are modelled as rationals (`ℚ`); `Math.random()` is
modelled as an explicit stream of draws (`Rng`); `Math.floor` is `Int.floor`;
`Date.now()` values and investment ids are threaded as explicit arguments.
`Math.exp`, used only for the price values of the instant-loss decay phase,
is threaded as an explicit function parameter `rexp`; no claim below depends
on its values.  Fallible operations return structured results, mirroring the
`{success, message, ...}` objects of the source; the result-object string
messages are represented by the `ErrMsg` enumeration.
-/

namespace RugPull

/-- The process-wide random source: an infinite stream of `Math.random()`
draws together with a cursor pointing at the next draw. -/
structure Rng where
  g : ℕ → ℚ
  i : ℕ

/-- The value of the next `Math.random()` call. -/
def Rng.take (r : Rng) : ℚ := r.g r.i

/-- Advance past one `Math.random()` call. -/
def Rng.step (r : Rng) : Rng := ⟨r.g, r.i + 1⟩

/-- All draws of the stream lie in `[0, 1)`, as `Math.random()` guarantees. -/
def Rng.InRange (r : Rng) : Prop := ∀ n, 0 ≤ r.g n ∧ r.g n < 1

/-- `ChartGenerator.random(min, max)` applied to one draw `u`:
`min + u * (max - min)`. -/
def random (lo hi u : ℚ) : ℚ := lo + u * (hi - lo)

/-- `ChartGenerator.noise()` applied to one draw `u`: `(u - 0.5) * 2`. -/
def noise (u : ℚ) : ℚ := (u - 0.5) * 2

/-- `ChartGenerator.easeInOutCubic(t)`. -/
def easeInOutCubic (t : ℚ) : ℚ :=
  if t < 0.5 then 4 * t * t * t else 1 - (-2 * t + 2) ^ 3 / 2

/-- The four round types of `ChartGenerator.ROUND_TYPES`. -/
inductive RoundType
  | instant_loss
  | small_peak
  | medium_peak
  | moon_shot
deriving DecidableEq

/-- `ROUND_TYPES` as the entry list `Object.entries` iterates, in insertion
order: `(probability, name)` pairs. -/
def ROUND_TYPES : List (ℚ × RoundType) :=
  [(0.40, .instant_loss), (0.35, .small_peak), (0.20, .medium_peak), (0.05, .moon_shot)]

/-- The accumulation loop of `selectRoundType`: walk the buckets keeping a
running `cumulative` total, returning the first bucket with `rand ≤ cumulative`;
`none` when the loop exhausts the list. -/
def selectLoop (rand : ℚ) : ℚ → List (ℚ × RoundType) → Option RoundType
  | _, [] => none
  | cumulative, (p, name) :: rest =>
    if rand ≤ cumulative + p then some name else selectLoop rand (cumulative + p) rest

/-- `ChartGenerator.selectRoundType()` with the `Math.random()` draw made
explicit; falls back to `INSTANT_LOSS` when the loop exhausts the buckets. -/
def selectRoundType (rand : ℚ) : RoundType :=
  (selectLoop rand 0 ROUND_TYPES).getD .instant_loss

/-- A point of the opening-chaos sequence (`generateOpeningChaos` emits
`{time, price}` objects without a `day` field). -/
structure CPoint where
  time : ℚ
  price : ℚ
deriving DecidableEq

/-- A point of a generated price curve: `{time, price, day}`. -/
structure PricePoint where
  time : ℚ
  price : ℚ
  day : ℤ
deriving DecidableEq

/-- The swing loop of `generateOpeningChaos` (its `for (let i = 1; i <= numSwings ...)`
body): `fuel` counts remaining iterations, `i` is the loop counter, `price` and
`dir` are the mutable `price` and `direction` variables.  Each iteration draws
the swing magnitude, moves and clamps the price, then draws the 70% direction
flip. -/
def chaosLoop : ℕ → ℕ → ℚ → ℚ → Rng → List CPoint × Rng
  | 0, _, _, _, r => ([], r)
  | fuel + 1, i, price, dir, r =>
    let swingPercent := random 0.10 0.35 r.take
    let swingAmount := price * swingPercent * dir
    let price1 := max 0.25 (min 1.60 (price + swingAmount))
    let dir1 := if r.step.take < 0.70 then -dir else dir
    let next := chaosLoop fuel (i + 1) price1 dir1 r.step.step
    (⟨(i : ℚ) * 0.15, price1⟩ :: next.1, next.2)

/-- `ChartGenerator.generateOpeningChaos(duration)`: one draw for the initial
direction, then `numSwings = floor(duration / 0.15)` swing iterations; the
sequence starts with the fixed point `{time: 0, price: 1.00}`. -/
def generateOpeningChaos (duration : ℚ) (r : Rng) : List CPoint × Rng :=
  let numSwings := ((duration / 0.15).floor).toNat
  let dir : ℚ := if r.take > 0.5 then 1 else -1
  let res := chaosLoop numSwings 1 1 dir r.step
  (⟨0, 1⟩ :: res.1, res.2)

/-- The inner interpolation loop shared by `generateInstantLoss` and
`generatePeakCurve`: for one consecutive chaos pair, emit `ticksPerSwing`
linearly interpolated points with `day = floor(time) + 1`. -/
def interpSeg (a b : CPoint) (ticksPerSwing : ℕ) : List PricePoint :=
  (List.range ticksPerSwing).map fun j : ℕ =>
    let progress : ℚ := (j : ℚ) / (ticksPerSwing : ℚ)
    let time := a.time + progress * (b.time - a.time)
    let price := a.price + progress * (b.price - a.price)
    ⟨time, price, time.floor + 1⟩

/-- The outer interpolation loop shared by `generateInstantLoss` and
`generatePeakCurve`: walk all consecutive chaos pairs. -/
def chaosInterp : List CPoint → ℕ → List PricePoint
  | a :: b :: rest, ticksPerSwing => interpSeg a b ticksPerSwing ++ chaosInterp (b :: rest) ticksPerSwing
  | _, _ => []

/-- The `openingDuration = this.random(1.5, 3.0)` line followed by the
`generateOpeningChaos(openingDuration)` call — the identical opening block at
the top of both `generateInstantLoss` and `generatePeakCurve`. -/
def openingChaosPhase (r : Rng) : (ℚ × List CPoint) × Rng :=
  let openingDuration := random 1.5 3.0 r.take
  let res := generateOpeningChaos openingDuration r.step
  ((openingDuration, res.1), res.2)

/-- The whole opening block shared verbatim by `generateInstantLoss` and
`generatePeakCurve`: opening duration draw, chaos generation, `openingSamples`
and `ticksPerSwing` computation, chaos interpolation, and the appended final
chaos point.  Returns the emitted price points, the final chaos point, and the
opening duration. -/
def openingPhasePoints (samples : ℕ) (duration : ℚ) (r : Rng) :
    (List PricePoint × CPoint × ℚ) × Rng :=
  let op := openingChaosPhase r
  let openingDuration := op.1.1
  let chaosPoints := op.1.2
  let openingSamples := ((openingDuration / duration * (samples : ℚ)).floor).toNat
  let ticksPerSwing := openingSamples / chaosPoints.length
  let finalChaos := chaosPoints.getLastD ⟨0, 1⟩
  ((chaosInterp chaosPoints ticksPerSwing ++
      [⟨finalChaos.time, finalChaos.price, finalChaos.time.floor + 1⟩],
    finalChaos, openingDuration), op.2)

/-- The `pricePoints[pricePoints.length - 1].price = 0` assignment closing both
curve generators. -/
def setLastPriceZero : List PricePoint → List PricePoint
  | [] => []
  | [p] => [{ p with price := 0 }]
  | p :: q :: rest => p :: setLastPriceZero (q :: rest)

/-- Run a counted loop whose body consumes random draws and emits one price
point per iteration, threading the random source. -/
def randMapRange (f : ℕ → Rng → PricePoint × Rng) : ℕ → ℕ → Rng → List PricePoint × Rng
  | 0, _, r => ([], r)
  | n + 1, i, r =>
    let fst := f i r
    let rest := randMapRange f n (i + 1) fst.2
    (fst.1 :: rest.1, rest.2)

/-- One iteration of the exponential-decay loop of `generateInstantLoss`
(`decayRate = 0.5`); consumes one `noise()` draw. -/
def decayBody (rexp : ℚ → ℚ) (finalChaosPrice openingDuration duration : ℚ) (rs : ℕ)
    (i : ℕ) (r : Rng) : PricePoint × Rng :=
  let timeFrac : ℚ := (i : ℚ) / (rs : ℚ)
  let time := openingDuration + timeFrac * (duration - openingDuration)
  let price := max 0 (finalChaosPrice * rexp (-(0.5) * timeFrac) + noise r.take * 0.02)
  (⟨time, price, time.floor + 1⟩, r.step)

/-- `ChartGenerator.generateInstantLoss(samples, duration)`: shared opening
phase, then exponential decay from the final chaos price, then the forced
crash to price 0. -/
def generateInstantLoss (rexp : ℚ → ℚ) (samples : ℕ) (duration : ℚ) (r : Rng) :
    List PricePoint × Rng :=
  let op := openingPhasePoints samples duration r
  let pre := op.1.1
  let finalChaos := op.1.2.1
  let openingDuration := op.1.2.2
  let remainingSamples := samples - pre.length
  let body :=
    randMapRange (decayBody rexp finalChaos.price openingDuration duration remainingSamples)
      remainingSamples 0 op.2
  (setLastPriceZero (pre ++ body.1), body.2)

/-- One iteration of the rise/crash loop of `generatePeakCurve`; consumes one
`noise()` draw.  `rs` is `remainingSamples`, `ps` is `peakSample`. -/
def peakBody (finalChaosPrice openingDuration remainingDuration peakMultiplier : ℚ)
    (rs ps : ℕ) (i : ℕ) (r : Rng) : PricePoint × Rng :=
  let timeFrac : ℚ := (i : ℚ) / (rs : ℚ)
  let time := openingDuration + timeFrac * remainingDuration
  let price :=
    if i ≤ ps then
      let riseProgress : ℚ := (i : ℚ) / (ps : ℚ)
      let easedProgress := easeInOutCubic riseProgress
      let base :=
        if finalChaosPrice < 1 then
          if riseProgress < 0.4 then
            finalChaosPrice + (1 - finalChaosPrice) * (riseProgress / 0.4)
          else
            1 + (peakMultiplier - 1) * ((riseProgress - 0.4) / 0.6)
        else
          finalChaosPrice + (peakMultiplier - finalChaosPrice) * easedProgress
      base + noise r.take * 0.03
    else
      let crashProgress := ((i : ℚ) - (ps : ℚ)) / ((rs : ℚ) - (ps : ℚ))
      peakMultiplier * (1 - crashProgress ^ 2) + noise r.take * 0.05
  (⟨time, max 0 price, time.floor + 1⟩, r.step)

/-- `ChartGenerator.generatePeakCurve(samples, duration, peakMultiplier)`:
shared opening phase, then a rise to the peak at `peakSample =
floor(remainingSamples * random(0.3, 0.6))` followed by a quadratic crash,
then the forced crash to price 0. -/
def generatePeakCurve (samples : ℕ) (duration peakMultiplier : ℚ) (r : Rng) :
    List PricePoint × Rng :=
  let op := openingPhasePoints samples duration r
  let pre := op.1.1
  let finalChaos := op.1.2.1
  let openingDuration := op.1.2.2
  let remainingSamples := samples - pre.length
  let remainingDuration := duration - openingDuration
  let peakTimeFrac := random 0.3 0.6 op.2.take
  let peakSample := (((remainingSamples : ℚ) * peakTimeFrac).floor).toNat
  let body :=
    randMapRange (peakBody finalChaos.price openingDuration remainingDuration peakMultiplier
        remainingSamples peakSample) remainingSamples 0 op.2.step
  (setLastPriceZero (pre ++ body.1), body.2)

/-- A generated round: `{type, peakMultiplier, pricePoints, duration}`. -/
structure Round where
  type : RoundType
  peakMultiplier : ℚ
  pricePoints : List PricePoint
  duration : ℚ
deriving DecidableEq

/-- `ChartGenerator.generateChart(durationSeconds)` at 10 samples per second:
a draw inside `selectRoundType`, then per-type peak-multiplier draws and the
matching curve generator. -/
def generateChart (rexp : ℚ → ℚ) (durationSeconds : ℕ) (r : Rng) : Round × Rng :=
  let roundType := selectRoundType r.take
  let r0 := r.step
  let samples := durationSeconds * 10
  match roundType with
  | .instant_loss =>
    let res := generateInstantLoss rexp samples (durationSeconds : ℚ) r0
    (⟨.instant_loss, 0, res.1, (durationSeconds : ℚ)⟩, res.2)
  | .small_peak =>
    let pm := random 1.1 1.3 r0.take
    let res := generatePeakCurve samples (durationSeconds : ℚ) pm r0.step
    (⟨.small_peak, pm, res.1, (durationSeconds : ℚ)⟩, res.2)
  | .medium_peak =>
    let pm := random 1.5 2.0 r0.take
    let res := generatePeakCurve samples (durationSeconds : ℚ) pm r0.step
    (⟨.medium_peak, pm, res.1, (durationSeconds : ℚ)⟩, res.2)
  | .moon_shot =>
    let pm := random 3.0 5.0 r0.take
    let res := generatePeakCurve samples (durationSeconds : ℚ) pm r0.step
    (⟨.moon_shot, pm, res.1, (durationSeconds : ℚ)⟩, res.2)

/-- The bracket-search loop of `getPriceAtTime`: the first consecutive pair
with `points[i].time ≤ t` and `points[i+1].time > t`. -/
def findBracket : List PricePoint → ℚ → Option (PricePoint × PricePoint)
  | a :: b :: rest, t =>
    if a.time ≤ t ∧ b.time > t then some (a, b) else findBracket (b :: rest) t
  | _, _ => none

/-- `ChartGenerator.getPriceAtTime(pricePoints, currentTime)`. -/
def getPriceAtTime (pricePoints : List PricePoint) (currentTime : ℚ) : ℚ :=
  match pricePoints with
  | [] => 1
  | p0 :: rest =>
    let lastPt := (p0 :: rest).getLastD p0
    if currentTime ≤ 0 then p0.price
    else if currentTime ≥ lastPt.time then lastPt.price
    else
      match findBracket (p0 :: rest) currentTime with
      | some (a, b) =>
        let t := (currentTime - a.time) / (b.time - a.time)
        a.price + t * (b.price - a.price)
      | none => lastPt.price

/-! ### InvestmentManager (`src/core/InvestmentManager.js`) -/

/-- The string messages carried by the structured `{success: false, message}`
results across the core. -/
inductive ErrMsg
  | insufficientFunds       -- 'Insufficient funds'
  | roundNotActive          -- 'Round not active'
  | cannotDoubleDown        -- 'Cannot double down'
  | tooLateToDoubleDown     -- 'Too late to double down'
  | alreadyDoubledDown      -- 'Already doubled down this round'
  | alreadyCashedOut        -- 'Already cashed out' / 'Already cashed out this round'
  | noInitialInvestment     -- 'No initial investment'
  | noActiveInvestments     -- 'No active investments'
deriving DecidableEq

/-- A position's status. -/
inductive PStatus
  | active
  | cashed_out
  | lost
deriving DecidableEq

/-- A position's kind (`type` field): `initial` or `doubled`. -/
inductive PKind
  | initial
  | doubled
deriving DecidableEq

/-- One investment record; `id` (`Date.now() + Math.random()` in the source)
is threaded as an explicit value. -/
structure Investment where
  id : ℚ
  amount : ℚ
  entryPrice : ℚ
  entryTime : ℚ
  entryDay : ℤ
  status : PStatus
  type : PKind
deriving DecidableEq

/-- The per-round mutable state of `InvestmentManager`. -/
structure IMState where
  investments : List Investment
  hasDoubledDown : Bool
  hasCashedOut : Bool
deriving DecidableEq

/-- The per-position record pushed into `positions` by
`calculateCurrentProfit` (`{...inv, multiplier, value, profit}`). -/
structure PosSnapshot where
  pos : Investment
  multiplier : ℚ
  value : ℚ
  profit : ℚ
deriving DecidableEq

/-- The profit snapshot returned by `calculateCurrentProfit`. -/
structure ProfitData where
  totalProfit : ℚ
  totalInvested : ℚ
  currentValue : ℚ
  multiplier : ℚ
  positions : List PosSnapshot
deriving DecidableEq

namespace InvestmentManager

/-- `reset()`. -/
def reset : IMState := ⟨[], false, false⟩

/-- `autoInvest(amount)`: appends the mandatory initial position at price 1.00,
time 0, day 1; always succeeds. -/
def autoInvest (s : IMState) (amount idv : ℚ) : IMState × Investment :=
  let investment : Investment := ⟨idv, amount, 1, 0, 1, .active, .initial⟩
  ({ s with investments := s.investments ++ [investment] }, investment)

/-- Result of `InvestmentManager.doubleDown`. -/
inductive DDRes
  | fail (message : ErrMsg)
  | ok (investment : Investment)
deriving DecidableEq

/-- `doubleDown(amount, entryPrice, entryTime)`. -/
def doubleDown (s : IMState) (amount entryPrice entryTime idv : ℚ) : IMState × DDRes :=
  if s.hasDoubledDown then (s, .fail .alreadyDoubledDown)
  else if s.hasCashedOut then (s, .fail .alreadyCashedOut)
  else if s.investments.length = 0 then (s, .fail .noInitialInvestment)
  else
    let investment : Investment :=
      ⟨idv, amount, entryPrice, entryTime, entryTime.floor + 1, .active, .doubled⟩
    ({ s with investments := s.investments ++ [investment], hasDoubledDown := true },
      .ok investment)

/-- `calculateCurrentProfit(currentPrice)`: early all-zero return for an empty
position list, otherwise the accumulation loop over the positions. -/
def calculateCurrentProfit (s : IMState) (currentPrice : ℚ) : ProfitData :=
  if s.investments.length = 0 then ⟨0, 0, 0, 0, []⟩
  else
    let step := fun (acc : ℚ × ℚ × List PosSnapshot) (inv : Investment) =>
      let multiplier := currentPrice / inv.entryPrice
      let value := inv.amount * multiplier
      let profit := value - inv.amount
      (acc.1 + inv.amount, acc.2.1 + value, acc.2.2 ++ [⟨inv, multiplier, value, profit⟩])
    let acc := s.investments.foldl step (0, 0, [])
    ⟨acc.2.1 - acc.1, acc.1, acc.2.1, acc.2.1 / acc.1, acc.2.2⟩

/-- `calculateCurrentProfit` with the state threaded through explicitly: the
method assigns to no field, so the state component is returned unchanged. -/
def calculateCurrentProfitM (s : IMState) (currentPrice : ℚ) : ProfitData × IMState :=
  (calculateCurrentProfit s currentPrice, s)

/-- Result of `InvestmentManager.cashOut`. -/
inductive CashRes
  | fail (message : ErrMsg)
  | ok (profitData : ProfitData)
deriving DecidableEq

/-- `cashOut(currentPrice)`: computes the snapshot, sets `hasCashedOut`, marks
every position `cashed_out`, and returns the snapshot. -/
def cashOut (s : IMState) (currentPrice : ℚ) : IMState × CashRes :=
  if s.investments.length = 0 then (s, .fail .noActiveInvestments)
  else if s.hasCashedOut then (s, .fail .alreadyCashedOut)
  else
    let profitData := calculateCurrentProfit s currentPrice
    ({ s with
        hasCashedOut := true,
        investments := s.investments.map (fun inv => { inv with status := .cashed_out }) },
      .ok profitData)

/-- Result of `markAsLost` (`{success, totalLoss, totalInvested}`; the
failure shape `{success: false, totalLoss: 0}` is modelled with both totals 0). -/
structure LossRes where
  success : Bool
  totalLoss : ℚ
  totalInvested : ℚ
deriving DecidableEq

/-- `markAsLost()`: sets every position's status to `lost` and accumulates the
total staked amount. -/
def markAsLost (s : IMState) : IMState × LossRes :=
  if s.investments.length = 0 then (s, ⟨false, 0, 0⟩)
  else
    let totalLoss := s.investments.foldl (fun acc inv => acc + inv.amount) 0
    ({ s with investments := s.investments.map (fun inv => { inv with status := .lost }) },
      ⟨true, totalLoss, totalLoss⟩)

/-- `canDoubleDown()`. -/
def canDoubleDown (s : IMState) : Bool :=
  !s.hasDoubledDown && !s.hasCashedOut && decide (s.investments.length > 0)

/-- `hasActiveInvestments()`. -/
def hasActiveInvestments (s : IMState) : Bool :=
  decide (s.investments.length > 0) && !s.hasCashedOut

end InvestmentManager

/-! ### BalanceManager (`BalanceManager.js`) -/

/-- Transaction reasons used by the core (`'investment'`, `'cash_out'`). -/
inductive TxReason
  | investment
  | cash_out
deriving DecidableEq

/-- One entry of the transaction log; `timestamp` (`Date.now()`) is threaded
as an explicit value. -/
structure LedgerEntry where
  amount : ℚ
  reason : TxReason
  timestamp : ℤ
  balanceAfter : ℚ
deriving DecidableEq

/-- The mutable state of `BalanceManager` (persistence to `localStorage` is an
external collaborator and has no effect on this state). -/
structure BMState where
  balance : ℚ
  initialBalance : ℚ
  transactionHistory : List LedgerEntry
deriving DecidableEq

namespace BalanceManager

/-- `hasSufficientFunds(amount)`. -/
def hasSufficientFunds (s : BMState) (amount : ℚ) : Bool :=
  decide (s.balance ≥ amount)

/-- `recordTransaction(amount, reason)`: push one entry carrying the current
balance, then evict the oldest entry when the log exceeds 100 entries. -/
def recordTransaction (s : BMState) (amount : ℚ) (reason : TxReason) (now : ℤ) : BMState :=
  let h := s.transactionHistory ++ [⟨amount, reason, now, s.balance⟩]
  { s with transactionHistory := if h.length > 100 then h.drop 1 else h }

/-- The `{success, message?, balance, amount?}` result of `deduct`/`add`. -/
structure TxRes where
  success : Bool
  message : Option ErrMsg
  balance : ℚ
  amount : Option ℚ
deriving DecidableEq

/-- `deduct(amount, reason)`. -/
def deduct (s : BMState) (amount : ℚ) (reason : TxReason) (now : ℤ) : BMState × TxRes :=
  if !hasSufficientFunds s amount then
    (s, ⟨false, some .insufficientFunds, s.balance, none⟩)
  else
    let s1 := { s with balance := s.balance - amount }
    let s2 := recordTransaction s1 (-amount) reason now
    (s2, ⟨true, none, s1.balance, some (-amount)⟩)

/-- `add(amount, reason)`: always succeeds. -/
def add (s : BMState) (amount : ℚ) (reason : TxReason) (now : ℤ) : BMState × TxRes :=
  let s1 := { s with balance := s.balance + amount }
  let s2 := recordTransaction s1 amount reason now
  (s2, ⟨true, none, s1.balance, some amount⟩)

end BalanceManager

/-! ### GameController (`src/core/GameController.js`)

The wall-clock reading `roundTimer.getElapsedTime()` is threaded as an
explicit `elapsedTime` argument; `Date.now()` and the id draw of a new
investment are likewise explicit.  A `none` result models the paths where the
source would fault on a `null` `currentRound` (unreachable while `active`). -/

/-- The lifecycle states. -/
inductive GState
  | idle
  | countdown
  | active
  | results
deriving DecidableEq

/-- The cash-out snapshot stored in `lastCashOutResult`. -/
structure CashSnapshot where
  totalProfit : ℚ
  multiplier : ℚ
  totalInvested : ℚ
  currentValue : ℚ
deriving DecidableEq

/-- The slice of `GameController` state the economic core mutates. -/
structure GCState where
  state : GState
  currentRound : Option Round
  betAmount : ℚ
  lastCashOutResult : Option CashSnapshot
  im : IMState
  bm : BMState
deriving DecidableEq

/-- The settlement outcome names. -/
inductive Outcome
  | loss
  | cashed_out
  | no_investment
deriving DecidableEq

/-- The settlement result assembled by `endRound` (optional fields mirror the
fields present only on some branches of the source object). -/
structure RoundResult where
  outcome : Outcome
  profit : ℚ
  multiplier : ℚ
  success : Option Bool := none
  totalLoss : Option ℚ := none
  totalInvested : Option ℚ := none
  currentValue : Option ℚ := none
deriving DecidableEq

namespace GameController

/-- Result of `GameController.doubleDown`. -/
inductive DoubleDownRes
  | fail (message : ErrMsg)
  | ok (investment : Investment) (balance : ℚ)
deriving DecidableEq

/-- `doubleDown()`: state gate, `canDoubleDown` gate, the 70% time gate on
`elapsed / duration`, the funds gate, then price sampling, deduction and the
doubled position. -/
def doubleDown (g : GCState) (elapsedTime idv : ℚ) (now : ℤ) :
    Option (GCState × DoubleDownRes) :=
  if g.state ≠ .active then some (g, .fail .roundNotActive)
  else if !InvestmentManager.canDoubleDown g.im then some (g, .fail .cannotDoubleDown)
  else
    match g.currentRound with
    | none => none
    | some round =>
      let roundProgress := elapsedTime / round.duration
      if roundProgress > 0.70 then some (g, .fail .tooLateToDoubleDown)
      else if !BalanceManager.hasSufficientFunds g.bm g.betAmount then
        some (g, .fail .insufficientFunds)
      else
        let currentPrice := getPriceAtTime round.pricePoints elapsedTime
        let ded := BalanceManager.deduct g.bm g.betAmount .investment now
        if !ded.2.success then some ({ g with bm := ded.1 }, .fail .insufficientFunds)
        else
          let dd := InvestmentManager.doubleDown g.im g.betAmount currentPrice elapsedTime idv
          match dd.2 with
          | .fail m => some ({ g with bm := ded.1, im := dd.1 }, .fail m)
          | .ok inv => some ({ g with bm := ded.1, im := dd.1 }, .ok inv ded.1.balance)

/-- Result of `GameController.cashOut`. -/
inductive CashOutRes
  | fail (message : ErrMsg)
  | ok (profitData : ProfitData) (balance : ℚ)
deriving DecidableEq

/-- `cashOut()`: state gate, active-investments gate, then price sampling,
`InvestmentManager.cashOut`, balance credit, and snapshot storage. -/
def cashOut (g : GCState) (elapsedTime : ℚ) (now : ℤ) :
    Option (GCState × CashOutRes) :=
  if g.state ≠ .active then some (g, .fail .roundNotActive)
  else if !InvestmentManager.hasActiveInvestments g.im then
    some (g, .fail .noActiveInvestments)
  else
    match g.currentRound with
    | none => none
    | some round =>
      let currentPrice := getPriceAtTime round.pricePoints elapsedTime
      let co := InvestmentManager.cashOut g.im currentPrice
      match co.2 with
      | .fail m => some ({ g with im := co.1 }, .fail m)
      | .ok pd =>
        let bm1 := (BalanceManager.add g.bm pd.currentValue .cash_out now).1
        let snap : CashSnapshot := ⟨pd.totalProfit, pd.multiplier, pd.totalInvested, pd.currentValue⟩
        some ({ g with im := co.1, bm := bm1, lastCashOutResult := some snap },
          .ok pd bm1.balance)

/-- `endRound()`: mark still-active positions lost, else reuse the stored
cash-out snapshot, else `no_investment`; transitions to `results`. -/
def endRound (g : GCState) : GCState × RoundResult :=
  if InvestmentManager.hasActiveInvestments g.im then
    let ml := InvestmentManager.markAsLost g.im
    ({ g with state := .results, im := ml.1 },
      { outcome := .loss
        profit := -ml.2.totalLoss
        multiplier := 0
        success := some ml.2.success
        totalLoss := some ml.2.totalLoss
        totalInvested := some ml.2.totalInvested })
  else
    match g.im.hasCashedOut, g.lastCashOutResult with
    | true, some sc =>
      ({ g with state := .results },
        { outcome := .cashed_out
          profit := sc.totalProfit
          multiplier := sc.multiplier
          totalInvested := some sc.totalInvested
          currentValue := some sc.currentValue })
    | _, _ =>
      ({ g with state := .results },
        { outcome := .no_investment, profit := 0, multiplier := 0 })

/-- `getCurrentPrice()`. -/
def getCurrentPrice (g : GCState) (elapsedTime : ℚ) : ℚ :=
  if g.state ≠ .active then 1
  else
    match g.currentRound with
    | none => 1
    | some round => getPriceAtTime round.pricePoints elapsedTime

/-- The `priceUpdate` event payload. -/
structure PriceUpdate where
  price : ℚ
  day : ℤ
  time : ℚ
deriving DecidableEq

/-- The read-only body of one animation-loop step while the round is not yet
over: sample the price at the elapsed time and emit a `priceUpdate`; the
controller state is not mutated. -/
def sampleTick (g : GCState) (elapsedTime : ℚ) : GCState × PriceUpdate :=
  (g, ⟨getCurrentPrice g elapsedTime, elapsedTime.floor + 1, elapsedTime⟩)

/-- Run a sequence of animation-loop price samples. -/
def applySamples (g : GCState) (ts : List ℚ) : GCState :=
  ts.foldl (fun s t => (sampleTick s t).1) g

end GameController


/-! ### Auxiliary definitions: time projections, specification-side functions, and concrete witness inputs -/

/-- The times of a price-point list. -/
def timesQ (l : List PricePoint) : List ℚ := l.map fun p => p.time

/-- The times of a chaos-point list. -/
def timesQC (l : List CPoint) : List ℚ := l.map fun c => c.time

/-- The time of the `k`-th opening-chaos swing: `k * 0.15`. -/
def swingTime (k : ℕ) : ℚ := (k : ℚ) * 0.15

/-- A concrete draw stream: first draw 1/2 (selects `small_peak`), third draw
2/3 (makes the opening-chaos duration 2.5 s); all other draws 0. -/
def cexStream : ℕ → ℚ := fun n => if n = 0 then 1/2 else if n = 2 then 2/3 else 0

/-- Two still-active positions for the claim C5 scenario: a $100 initial
position at entry 1.00 and a $100 doubled position at entry 0.80. -/
def c5pos1 : Investment := ⟨1, 100, 1, 0, 1, .active, .initial⟩

def c5pos2 : Investment := ⟨2, 100, 0.80, 5, 6, .active, .doubled⟩

def c5g : GCState :=
  ⟨.active, none, 100, none, ⟨[c5pos1, c5pos2], true, false⟩, ⟨800, 1000, []⟩⟩

/-- The per-position snapshot `calculateCurrentProfit` builds for one
investment at price `p`. -/
def posSnapshotAt (p : ℚ) (inv : Investment) : PosSnapshot :=
  ⟨inv, p / inv.entryPrice, inv.amount * (p / inv.entryPrice),
    inv.amount * (p / inv.entryPrice) - inv.amount⟩

/-- The round-type selection as the specification words it: the first bucket
whose accumulated probability total (0.40, 0.75, 0.95, 1.00) is at least the
draw, boundaries resolving to the earlier bucket. -/
def selectRoundTypeSpec (d : ℚ) : RoundType :=
  if d ≤ 0.40 then .instant_loss
  else if d ≤ 0.75 then .small_peak
  else if d ≤ 0.95 then .medium_peak
  else .moon_shot

/-- A two-point round for the cash-out scenario: price 1.00 at t=0 falling
linearly to the crash at t=10. -/
def c3round : Round := ⟨.small_peak, 1.2, [⟨0, 1, 1⟩, ⟨10, 0, 11⟩], 10⟩

def c3g : GCState :=
  ⟨.active, some c3round, 100, none,
    ⟨[⟨1, 100, 1, 0, 1, .active, .initial⟩], false, false⟩, ⟨900, 1000, []⟩⟩

/-- The profit snapshot at the price sampled at t=5 (price 0.5). -/
def c3pd : ProfitData :=
  InvestmentManager.calculateCurrentProfit c3g.im (getPriceAtTime c3round.pricePoints 5)

def c3after : GCState :=
  ((GameController.cashOut c3g 5 0).getD (c3g, .fail .roundNotActive)).1

/-- A ten-second round for the double-down scenario. -/
def c6round : Round := ⟨.small_peak, 1.2, [⟨0, 1, 1⟩, ⟨10, 0, 11⟩], 10⟩

def c6g : GCState :=
  ⟨.active, some c6round, 100, none,
    ⟨[⟨1, 100, 1, 0, 1, .active, .initial⟩], false, false⟩, ⟨900, 1000, []⟩⟩

/-- Default point used for out-of-range list reads in the claim statements. -/
def dummyPt : PricePoint := ⟨0, 1, 1⟩

/-- Index `i` brackets time `t`: `points[i].time ≤ t < points[i+1].time`. -/
def isBracket (pts : List PricePoint) (t : ℚ) (i : ℕ) : Prop :=
  i + 1 < pts.length ∧ (pts.getD i dummyPt).time ≤ t ∧ t < (pts.getD (i + 1) dummyPt).time

/-- `i` is the first bracketing pair for `t` (duplicate timestamps resolve to
the earliest such pair). -/
def isFirstBracket (pts : List PricePoint) (t : ℚ) (i : ℕ) : Prop :=
  isBracket pts t i ∧ ∀ j < i, ¬ isBracket pts t j

/-- The linear interpolation between points `i` and `i+1` at time `t`, as the
specification words it. -/
def interpAt (pts : List PricePoint) (t : ℚ) (i : ℕ) : ℚ :=
  (pts.getD i dummyPt).price +
    (t - (pts.getD i dummyPt).time) /
        ((pts.getD (i + 1) dummyPt).time - (pts.getD i dummyPt).time) *
      ((pts.getD (i + 1) dummyPt).price - (pts.getD i dummyPt).price)

instance (pts : List PricePoint) (t : ℚ) (i : ℕ) : Decidable (isBracket pts t i) :=
  inferInstanceAs (Decidable (i + 1 < pts.length ∧
    (pts.getD i dummyPt).time ≤ t ∧ t < (pts.getD (i + 1) dummyPt).time))

instance (pts : List PricePoint) (t : ℚ) (i : ℕ) : Decidable (isFirstBracket pts t i) :=
  inferInstanceAs (Decidable (isBracket pts t i ∧ ∀ j < i, ¬ isBracket pts t j))

/-- A two-point crash curve for the sampling witness. -/
def c2pts : List PricePoint := [⟨0, 1, 1⟩, ⟨1, 0, 2⟩]

/-- The opening-chaos swing recurrence exactly as the specification words it:
each 150 ms tick multiplies the price by `(1 ± uniform(0.10, 0.35))` according
to the direction sign, clamps to `[0.25, 1.60]`, then flips the direction with
probability 0.70. -/
def chaosClaimLoop : ℕ → ℕ → ℚ → ℚ → Rng → List CPoint
  | 0, _, _, _, _ => []
  | fuel + 1, k, price, dir, r =>
    let price1 := max 0.25 (min 1.60 (price * (1 + dir * random 0.10 0.35 r.take)))
    let dir1 := if r.step.take < 0.70 then -dir else dir
    ⟨(k : ℚ) * 0.15, price1⟩ :: chaosClaimLoop fuel (k + 1) price1 dir1 r.step.step

/-- A draw stream whose first draw is 5/6, making the opening duration 2.75 s. -/
def c9stream : ℕ → ℚ := fun n => if n = 0 then 5/6 else 0

/-! ### Lemmas and claim theorems -/

@[simp] lemma timesQ_nil : timesQ [] = [] := rfl

@[simp] lemma timesQ_cons (p : PricePoint) (l : List PricePoint) :
    timesQ (p :: l) = p.time :: timesQ l := rfl

@[simp] lemma timesQ_append (l1 l2 : List PricePoint) :
    timesQ (l1 ++ l2) = timesQ l1 ++ timesQ l2 := List.map_append _ _ _

@[simp] lemma timesQC_nil : timesQC [] = [] := rfl

@[simp] lemma timesQC_cons (c : CPoint) (l : List CPoint) :
    timesQC (c :: l) = c.time :: timesQC l := rfl

/-- `Rat.floor` agrees with the mathematical floor. -/
lemma ratFloor_eq_intFloor (q : ℚ) : q.floor = ⌊q⌋ := by
  rw [Rat.floor_def]; exact Rat.floor_def' q

lemma chaosLoop_times (fuel : ℕ) : ∀ (i : ℕ) (p dir : ℚ) (r : Rng),
    timesQC (chaosLoop fuel i p dir r).1 =
      (List.range' i fuel).map swingTime := by
  induction fuel with
  | zero => intro i p dir r; simp [chaosLoop, timesQC]
  | succ n ih =>
    intro i p dir r
    simp only [chaosLoop, List.range'_succ, List.map_cons, timesQC, List.map, swingTime]
    exact congrArg _ (ih _ _ _ _)

lemma generateOpeningChaos_times (d : ℚ) (r : Rng) :
    timesQC (generateOpeningChaos d r).1 =
      0 :: (List.range' 1 (((d / 0.15).floor).toNat)).map swingTime := by
  unfold generateOpeningChaos
  simp only [timesQC_cons]
  exact congrArg₂ List.cons rfl
    (chaosLoop_times ((d / 0.15).floor.toNat) 1 1 (if r.take > 0.5 then 1 else -1) r.step)

lemma chain'_le_map_range' (f : ℕ → ℚ) (h : ∀ k, f k ≤ f (k + 1)) :
    ∀ (n i : ℕ), List.Chain' (· ≤ ·) ((List.range' i n).map f) := by
  intro n
  induction n with
  | zero => intro i; simp
  | succ m ih =>
    intro i
    rw [List.range'_succ, List.map_cons]
    cases m with
    | zero => simp
    | succ m2 =>
      rw [List.range'_succ, List.map_cons]
      refine List.Chain'.cons (h i) ?_
      rw [← List.map_cons, ← List.range'_succ]
      exact ih (i + 1)

lemma getLast_map_range' (f : ℕ → ℚ) : ∀ (m i : ℕ) (d : ℚ),
    ((List.range' i (m + 1)).map f).getLastD d = f (i + m) := by
  intro m
  induction m with
  | zero => intro i d; simp
  | succ m2 ih =>
    intro i d
    rw [List.range'_succ, List.map_cons, List.getLastD_cons, ih (i + 1) (f i)]
    ring_nf

lemma getLastD_time (l : List CPoint) : ∀ d : CPoint,
    (l.getLastD d).time = (timesQC l).getLastD d.time := by
  induction l with
  | nil => intro d; rfl
  | cons a t ih =>
    intro d
    rw [List.getLastD_cons, timesQC_cons, List.getLastD_cons, ih a]

/-- The last element of the chaos sequence sits at time `numSwings * 0.15`. -/
lemma generateOpeningChaos_lastTime (d : ℚ) (r : Rng) :
    ((generateOpeningChaos d r).1.getLastD ⟨0, 1⟩).time =
      ((((d / 0.15).floor).toNat : ℚ)) * 0.15 := by
  rw [getLastD_time, generateOpeningChaos_times]
  show (0 :: _).getLastD 0 = _
  rw [List.getLastD_cons]
  cases h : ((d / 0.15).floor).toNat with
  | zero => norm_num
  | succ m =>
    rw [getLast_map_range' swingTime m 1 0]
    rw [swingTime]
    push_cast
    ring

/-- Chaos-sequence times form a non-decreasing chain. -/
lemma generateOpeningChaos_chain (d : ℚ) (r : Rng) :
    List.Chain' (· ≤ ·) (timesQC (generateOpeningChaos d r).1) := by
  rw [generateOpeningChaos_times]
  cases h : ((d / 0.15).floor).toNat with
  | zero => simp
  | succ m =>
    rw [List.range'_succ, List.map_cons]
    refine List.Chain'.cons (by rw [swingTime]; norm_num) ?_
    rw [← List.map_cons, ← List.range'_succ]
    refine chain'_le_map_range' _ (fun k => ?_) (m + 1) 1
    rw [swingTime, swingTime]
    push_cast
    nlinarith [Nat.cast_nonneg (α := ℚ) k]

/-- Every chaos-sequence time lies in `[0, numSwings * 0.15]`. -/
lemma generateOpeningChaos_time_bound (d : ℚ) (r : Rng) :
    ∀ c ∈ (generateOpeningChaos d r).1, 0 ≤ c.time ∧
      c.time ≤ ((((d / 0.15).floor).toNat : ℚ)) * 0.15 := by
  intro c hc
  have hmem : c.time ∈ timesQC (generateOpeningChaos d r).1 :=
    List.mem_map_of_mem (fun x => x.time) hc
  rw [generateOpeningChaos_times, List.mem_cons] at hmem
  rcases hmem with h0 | hmem
  · constructor
    · rw [h0]
    · rw [h0]; positivity
  · rcases List.mem_map.mp hmem with ⟨k, hk, hke⟩
    rcases List.mem_range'.mp hk with ⟨j, hj, hkj⟩
    constructor
    · rw [← hke, swingTime]; positivity
    · rw [← hke, swingTime]
      have hkle : (k : ℚ) ≤ (((d / 0.15).floor).toNat : ℚ) := by
        have : k ≤ ((d / 0.15).floor).toNat := by omega
        exact_mod_cast this
      nlinarith

/-- A time-sorted chaos list has its head time below its last time. -/
lemma chain_headD_le_getLastD :
    ∀ (l : List CPoint), List.Chain' (fun x y : CPoint => x.time ≤ y.time) l →
      ∀ d : CPoint, l ≠ [] → (l.headD d).time ≤ (l.getLastD d).time := by
  intro l
  induction l with
  | nil => intro _ d h; exact absurd rfl h
  | cons a t ih =>
    intro hc d _
    cases t with
    | nil => simp
    | cons b t2 =>
      rw [List.chain'_cons] at hc
      have h2 := ih hc.2 a (by simp)
      simp only [List.headD_cons, List.getLastD_cons] at h2 ⊢
      calc a.time ≤ b.time := hc.1
        _ ≤ _ := h2

/-- Every point of one interpolation segment has its time between the two
endpoint times, and carries `day = floor(time) + 1`. -/
lemma interpSeg_facts {a b : CPoint} (hab : a.time ≤ b.time) (tps : ℕ) :
    ∀ q ∈ interpSeg a b tps,
      a.time ≤ q.time ∧ q.time ≤ b.time ∧ q.day = q.time.floor + 1 := by
  intro q hq
  rcases List.mem_map.mp hq with ⟨j, hj, hje⟩
  rw [List.mem_range] at hj
  have htps : 0 < tps := by omega
  have h0 : (0 : ℚ) ≤ (j : ℚ) / (tps : ℚ) := by positivity
  have h1 : (j : ℚ) / (tps : ℚ) ≤ 1 := by
    rw [div_le_one (by exact_mod_cast htps)]
    exact_mod_cast Nat.le_of_lt hj
  have hd : (0 : ℚ) ≤ b.time - a.time := by linarith
  subst hje
  refine ⟨?_, ?_, ?_⟩
  · dsimp only
    nlinarith
  · dsimp only
    nlinarith
  · rfl

/-- Interpolation-segment times form a non-decreasing chain. -/
lemma interpSeg_chain {a b : CPoint} (hab : a.time ≤ b.time) (tps : ℕ) :
    List.Chain' (· ≤ ·) (timesQ (interpSeg a b tps)) := by
  have hmap : timesQ (interpSeg a b tps) =
      (List.range tps).map (fun j : ℕ => a.time + (j : ℚ) / (tps : ℚ) * (b.time - a.time)) := by
    unfold timesQ interpSeg
    rw [List.map_map]
    rfl
  rw [hmap, List.range_eq_range']
  refine chain'_le_map_range' _ (fun k => ?_) tps 0
  have hd : (0 : ℚ) ≤ b.time - a.time := by linarith
  have hstep : (k : ℚ) / (tps : ℚ) ≤ ((k : ℚ) + 1) / (tps : ℚ) := by
    rcases Nat.eq_zero_or_pos tps with h0 | hpos
    · subst h0; norm_num
    · have hq : (0 : ℚ) < (tps : ℚ) := by exact_mod_cast hpos
      exact (div_le_div_iff_of_pos_right hq).mpr (by linarith)
  push_cast
  nlinarith

/-- `getLastD` of a nonempty list does not depend on the default. -/
lemma getLastD_irrel {α : Type} (b : α) (t : List α) (x y : α) :
    (b :: t).getLastD x = (b :: t).getLastD y := by
  rw [List.getLastD_cons, List.getLastD_cons]

/-- Combined facts about the chaos-interpolation output: its times are a
non-decreasing chain, bounded between the first and last chaos times, and
every emitted point carries `day = floor(time) + 1`. -/
lemma chaosInterp_facts : ∀ (cp : List CPoint) (tps : ℕ),
    List.Chain' (fun x y : CPoint => x.time ≤ y.time) cp →
    List.Chain' (· ≤ ·) (timesQ (chaosInterp cp tps)) ∧
    ∀ q ∈ chaosInterp cp tps,
      (cp.headD ⟨0, 1⟩).time ≤ q.time ∧ q.time ≤ (cp.getLastD ⟨0, 1⟩).time ∧
        q.day = q.time.floor + 1 := by
  intro cp
  induction cp with
  | nil =>
    intro tps _
    exact ⟨by simp [chaosInterp], by intro q hq; simp [chaosInterp] at hq⟩
  | cons a t ih =>
    cases t with
    | nil =>
      intro tps _
      exact ⟨by simp [chaosInterp], by intro q hq; simp [chaosInterp] at hq⟩
    | cons b t2 =>
      intro tps hc
      rw [List.chain'_cons] at hc
      obtain ⟨hab, hc2⟩ := hc
      obtain ⟨ihc, ihm⟩ := ih tps hc2
      have hunfold : chaosInterp (a :: b :: t2) tps =
          interpSeg a b tps ++ chaosInterp (b :: t2) tps := rfl
      constructor
      · rw [hunfold, timesQ_append]
        refine List.chain'_append.mpr ⟨interpSeg_chain hab tps, ihc, ?_⟩
        intro x hx y hy
        have hxm : x ∈ timesQ (interpSeg a b tps) := List.mem_of_mem_getLast? hx
        have hym : y ∈ timesQ (chaosInterp (b :: t2) tps) := List.mem_of_mem_head? hy
        rcases List.mem_map.mp hxm with ⟨qx, hqx, hqxe⟩
        rcases List.mem_map.mp hym with ⟨qy, hqy, hqye⟩
        have h1 := (interpSeg_facts hab tps qx hqx).2.1
        have h2 := (ihm qy hqy).1
        simp only [List.headD_cons] at h2
        rw [← hqxe, ← hqye]
        linarith
      · intro q hq
        rw [hunfold] at hq
        rcases List.mem_append.mp hq with hq1 | hq2
        · obtain ⟨hl, hu, hd⟩ := interpSeg_facts hab tps q hq1
          refine ⟨by simpa using hl, ?_, hd⟩
          have hbl := chain_headD_le_getLastD (b :: t2) hc2 a (by simp)
          simp only [List.headD_cons, List.getLastD_cons] at hbl ⊢
          linarith
        · obtain ⟨hl, hu, hd⟩ := ihm q hq2
          simp only [List.headD_cons, List.getLastD_cons] at hl hu ⊢
          exact ⟨by linarith, hu, hd⟩

/-- `getLastD` of a list ending in `[x]` is `x`. -/
lemma getLastD_append_single {α : Type} (l : List α) (x : α) :
    ∀ d : α, (l ++ [x]).getLastD d = x := by
  induction l with
  | nil => intro d; rfl
  | cons a t ih => intro d; rw [List.cons_append, List.getLastD_cons, ih a]

/-- Combined facts about the shared opening phase: the emitted point list is
nonempty with non-decreasing times ending exactly at the final chaos time,
every point carries `day = floor(time) + 1` and a time at most the final
chaos time, the final chaos time is at most the opening duration, and the
opening duration lies in `[1.5, 3)`. -/
lemma openingPhasePoints_facts (samples : ℕ) (duration : ℚ) (r : Rng) (hr : r.InRange) :
    (openingPhasePoints samples duration r).1.1 ≠ [] ∧
    List.Chain' (· ≤ ·) (timesQ (openingPhasePoints samples duration r).1.1) ∧
    (∀ q ∈ (openingPhasePoints samples duration r).1.1,
      q.day = q.time.floor + 1 ∧ q.time ≤ ((openingPhasePoints samples duration r).1.2.1).time) ∧
    (timesQ (openingPhasePoints samples duration r).1.1).getLast? =
      some ((openingPhasePoints samples duration r).1.2.1).time ∧
    ((openingPhasePoints samples duration r).1.2.1).time ≤
      (openingPhasePoints samples duration r).1.2.2 ∧
    1.5 ≤ (openingPhasePoints samples duration r).1.2.2 ∧
    (openingPhasePoints samples duration r).1.2.2 < 3 := by
  obtain ⟨hu0, hu1⟩ := hr r.i
  have hod15 : (1.5 : ℚ) ≤ random 1.5 3.0 r.take := by
    rw [random, Rng.take]; nlinarith
  have hod3 : random 1.5 3.0 r.take < 3 := by
    rw [random, Rng.take]; nlinarith
  set od := random 1.5 3.0 r.take with hodd
  set cp := (generateOpeningChaos od r.step).1 with hcp
  set fc : CPoint := cp.getLastD ⟨0, 1⟩ with hfc
  set tps := (((od / duration * (samples : ℚ)).floor).toNat) / cp.length with htps
  have hpre : (openingPhasePoints samples duration r).1.1 =
      chaosInterp cp tps ++ [⟨fc.time, fc.price, fc.time.floor + 1⟩] := rfl
  have hfc1 : (openingPhasePoints samples duration r).1.2.1 = fc := rfl
  have hod1 : (openingPhasePoints samples duration r).1.2.2 = od := rfl
  have hcpChain : List.Chain' (fun x y : CPoint => x.time ≤ y.time) cp := by
    have h := generateOpeningChaos_chain od r.step
    rw [timesQC] at h
    exact (List.chain'_map _).mp h
  obtain ⟨hic, him⟩ := chaosInterp_facts cp tps hcpChain
  have hup : ∀ q ∈ chaosInterp cp tps, q.time ≤ fc.time := fun q hq => (him q hq).2.1
  refine ⟨?_, ?_, ?_, ?_, ?_, ?_, ?_⟩
  · rw [hpre]; simp
  · rw [hpre, timesQ_append]
    refine List.chain'_append.mpr ⟨hic, by simp, ?_⟩
    intro x hx y hy
    have hxm : x ∈ timesQ (chaosInterp cp tps) := List.mem_of_mem_getLast? hx
    rcases List.mem_map.mp hxm with ⟨qx, hqx, hqxe⟩
    have hy' : y = fc.time := by
      simpa [timesQ] using List.mem_of_mem_head? hy
    rw [← hqxe, hy']
    exact hup qx hqx
  · intro q hq
    rw [hpre] at hq
    rcases List.mem_append.mp hq with h1 | h2
    · exact ⟨(him q h1).2.2, hfc1 ▸ hup q h1⟩
    · have : q = ⟨fc.time, fc.price, fc.time.floor + 1⟩ := by simpa using h2
      subst this
      exact ⟨rfl, le_refl _⟩
  · rw [hpre, timesQ_append]
    show (timesQ (chaosInterp cp tps) ++ [fc.time]).getLast? = _
    rw [List.getLast?_concat, hfc1]
  · rw [hfc1, hod1]
    have hfct : fc.time = ((((od / 0.15).floor).toNat : ℚ)) * 0.15 :=
      generateOpeningChaos_lastTime od r.step
    have hodpos : (0 : ℚ) < od := by linarith
    have hq : (0 : ℚ) ≤ od / 0.15 := by positivity
    have hfl : (0 : ℤ) ≤ (od / 0.15).floor := by
      rw [ratFloor_eq_intFloor]; exact Int.floor_nonneg.mpr hq
    have hcast : ((((od / 0.15).floor).toNat : ℚ)) = (((od / 0.15).floor : ℤ) : ℚ) := by
      exact_mod_cast congrArg (fun z : ℤ => (z : ℚ)) (Int.toNat_of_nonneg hfl)
    have hle : (((od / 0.15).floor : ℤ) : ℚ) ≤ od / 0.15 := by
      rw [ratFloor_eq_intFloor]; exact Int.floor_le _
    rw [hfct, hcast]
    have h015 : (od / 0.15) * 0.15 = od := by
      field_simp
    nlinarith
  · rw [hod1]; exact hod15
  · rw [hod1]; exact hod3

lemma randMapRange_times (f : ℕ → Rng → PricePoint × Rng) (τ : ℕ → ℚ)
    (hf : ∀ j r, ((f j r).1).time = τ j) :
    ∀ (n i : ℕ) (r : Rng), timesQ (randMapRange f n i r).1 = (List.range' i n).map τ := by
  intro n
  induction n with
  | zero => intro i r; simp [randMapRange, timesQ]
  | succ m ih =>
    intro i r
    rw [List.range'_succ, List.map_cons]
    show ((f i r).1).time :: timesQ (randMapRange f m (i + 1) (f i r).2).1 = _
    rw [hf i r, ih (i + 1) (f i r).2]

lemma randMapRange_mem (f : ℕ → Rng → PricePoint × Rng) :
    ∀ (n i : ℕ) (r : Rng) (q : PricePoint), q ∈ (randMapRange f n i r).1 →
      ∃ (j : ℕ) (r' : Rng), q = (f j r').1 := by
  intro n
  induction n with
  | zero => intro i r q hq; simp [randMapRange] at hq
  | succ m ih =>
    intro i r q hq
    rcases List.mem_cons.mp hq with h1 | h2
    · exact ⟨i, r, h1⟩
    · exact ih (i + 1) (f i r).2 q h2

lemma setLastPriceZero_ne_nil : ∀ l : List PricePoint, l ≠ [] → setLastPriceZero l ≠ [] := by
  intro l h
  match l with
  | [p] => simp [setLastPriceZero]
  | p :: q :: rest => simp [setLastPriceZero]

lemma timesQ_setLastPriceZero : ∀ l : List PricePoint,
    timesQ (setLastPriceZero l) = timesQ l := by
  intro l
  match l with
  | [] => rfl
  | [p] => rfl
  | p :: q :: rest =>
    show p.time :: timesQ (setLastPriceZero (q :: rest)) = _
    rw [timesQ_setLastPriceZero (q :: rest)]
    rfl

lemma mem_setLastPriceZero : ∀ (l : List PricePoint) (q : PricePoint),
    q ∈ setLastPriceZero l → ∃ p ∈ l, q.time = p.time ∧ q.day = p.day := by
  intro l q hq
  match l with
  | [] => simp [setLastPriceZero] at hq
  | [p] =>
    simp only [setLastPriceZero, List.mem_singleton] at hq
    exact ⟨p, by simp, by rw [hq], by rw [hq]⟩
  | p :: b :: rest =>
    rcases List.mem_cons.mp hq with h1 | h2
    · exact ⟨p, by simp, by rw [h1], by rw [h1]⟩
    · rcases mem_setLastPriceZero (b :: rest) q h2 with ⟨p2, hp2, he⟩
      exact ⟨p2, List.mem_cons_of_mem _ hp2, he⟩

lemma setLastPriceZero_last_price : ∀ l : List PricePoint, l ≠ [] →
    ∀ d, ((setLastPriceZero l).getLastD d).price = 0 := by
  intro l h
  match l with
  | [p] => intro d; rfl
  | p :: b :: rest =>
    intro d
    show ((p :: setLastPriceZero (b :: rest)).getLastD d).price = 0
    rw [List.getLastD_cons]
    have hne := setLastPriceZero_ne_nil (b :: rest) (by simp)
    match hsz : setLastPriceZero (b :: rest) with
    | [] => exact absurd hsz hne
    | z :: zs =>
      have := setLastPriceZero_last_price (b :: rest) (by simp) p
      rwa [hsz] at this

lemma head?_map_range' (f : ℕ → ℚ) (n i : ℕ) :
    ∀ y ∈ ((List.range' i n).map f).head?, y = f i := by
  cases n with
  | zero => simp
  | succ m =>
    rw [List.range'_succ, List.map_cons, List.head?_cons]
    intro y hy
    exact (by simpa using hy : f i = y).symm

/-- Division by a natural cast is monotone in the numerator (including the
degenerate zero denominator). -/
lemma natDiv_mono (k rs : ℕ) : (k : ℚ) / (rs : ℚ) ≤ ((k : ℚ) + 1) / (rs : ℚ) := by
  rcases Nat.eq_zero_or_pos rs with h0 | hpos
  · subst h0; norm_num
  · have hq : (0 : ℚ) < (rs : ℚ) := by exact_mod_cast hpos
    exact (div_le_div_iff_of_pos_right hq).mpr (by linarith)

lemma generateInstantLoss_facts (rexp : ℚ → ℚ) (samples : ℕ) (duration : ℚ) (r : Rng)
    (hr : r.InRange) :
    (generateInstantLoss rexp samples duration r).1 ≠ [] ∧
    (((generateInstantLoss rexp samples duration r).1).getLastD ⟨0, 1, 1⟩).price = 0 ∧
    (3 ≤ duration →
      List.Chain' (· ≤ ·) (timesQ (generateInstantLoss rexp samples duration r).1)) ∧
    ∀ q ∈ (generateInstantLoss rexp samples duration r).1, q.day = q.time.floor + 1 := by
  obtain ⟨hne, hchain, hmem, hlast, hfcod, hod15, hod3⟩ :=
    openingPhasePoints_facts samples duration r hr
  set op := openingPhasePoints samples duration r with hop
  set pre := op.1.1 with hpre
  set fc := op.1.2.1 with hfcd
  set od := op.1.2.2 with hodd
  set rs := samples - pre.length with hrs
  set body := (randMapRange (decayBody rexp fc.price od duration rs) rs 0 op.2).1 with hbody
  have hunfold : (generateInstantLoss rexp samples duration r).1 =
      setLastPriceZero (pre ++ body) := rfl
  have hτ : ∀ (j : ℕ) (r' : Rng), ((decayBody rexp fc.price od duration rs j r').1).time =
      od + ((j : ℚ) / (rs : ℚ)) * (duration - od) := fun j r' => rfl
  have hbt : timesQ body = (List.range' 0 rs).map
      (fun j : ℕ => od + ((j : ℚ) / (rs : ℚ)) * (duration - od)) :=
    randMapRange_times _ _ hτ rs 0 op.2
  have happne : pre ++ body ≠ [] := by
    intro h
    exact hne (List.append_eq_nil.mp h).1
  have hjunc : ∀ x ∈ (timesQ pre).getLast?, ∀ y ∈ (timesQ body).head?, x ≤ y := by
    intro x hx y hy
    rw [hlast] at hx
    have hxe : x = fc.time := (by simpa using hx : fc.time = x).symm
    rw [hbt] at hy
    have hye := head?_map_range' _ rs 0 y hy
    have : y = od := by rw [hye]; norm_num
    rw [hxe, this]
    exact hfcod
  refine ⟨?_, ?_, ?_, ?_⟩
  · rw [hunfold]
    exact setLastPriceZero_ne_nil _ happne
  · rw [hunfold]
    exact setLastPriceZero_last_price _ happne _
  · intro hd
    have hddod : (0 : ℚ) ≤ duration - od := by linarith
    have hbchain : List.Chain' (· ≤ ·) (timesQ body) := by
      rw [hbt]
      refine chain'_le_map_range' _ (fun k => ?_) rs 0
      have hstep := natDiv_mono k rs
      push_cast
      nlinarith
    rw [hunfold, timesQ_setLastPriceZero, timesQ_append]
    exact List.chain'_append.mpr ⟨hchain, hbchain, hjunc⟩
  · intro q hq
    rw [hunfold] at hq
    obtain ⟨p, hp, ht, hd2⟩ := mem_setLastPriceZero _ q hq
    have hpday : p.day = p.time.floor + 1 := by
      rcases List.mem_append.mp hp with h1 | h2
      · exact (hmem p h1).1
      · rcases randMapRange_mem _ rs 0 op.2 p h2 with ⟨j, r', he⟩
        rw [he]
        rfl
    rw [hd2, hpday, ht]

lemma generatePeakCurve_facts (samples : ℕ) (duration pm : ℚ) (r : Rng)
    (hr : r.InRange) :
    (generatePeakCurve samples duration pm r).1 ≠ [] ∧
    (((generatePeakCurve samples duration pm r).1).getLastD ⟨0, 1, 1⟩).price = 0 ∧
    (3 ≤ duration →
      List.Chain' (· ≤ ·) (timesQ (generatePeakCurve samples duration pm r).1)) ∧
    ∀ q ∈ (generatePeakCurve samples duration pm r).1, q.day = q.time.floor + 1 := by
  obtain ⟨hne, hchain, hmem, hlast, hfcod, hod15, hod3⟩ :=
    openingPhasePoints_facts samples duration r hr
  set op := openingPhasePoints samples duration r with hop
  set pre := op.1.1 with hpre
  set fc := op.1.2.1 with hfcd
  set od := op.1.2.2 with hodd
  set rs := samples - pre.length with hrs
  set ps := (((rs : ℚ) * random 0.3 0.6 op.2.take).floor).toNat with hps
  set body := (randMapRange (peakBody fc.price od (duration - od) pm rs ps) rs 0 op.2.step).1
    with hbody
  have hunfold : (generatePeakCurve samples duration pm r).1 =
      setLastPriceZero (pre ++ body) := rfl
  have hτ : ∀ (j : ℕ) (r' : Rng), ((peakBody fc.price od (duration - od) pm rs ps j r').1).time =
      od + ((j : ℚ) / (rs : ℚ)) * (duration - od) := fun j r' => rfl
  have hbt : timesQ body = (List.range' 0 rs).map
      (fun j : ℕ => od + ((j : ℚ) / (rs : ℚ)) * (duration - od)) :=
    randMapRange_times _ _ hτ rs 0 op.2.step
  have happne : pre ++ body ≠ [] := by
    intro h
    exact hne (List.append_eq_nil.mp h).1
  have hjunc : ∀ x ∈ (timesQ pre).getLast?, ∀ y ∈ (timesQ body).head?, x ≤ y := by
    intro x hx y hy
    rw [hlast] at hx
    have hxe : x = fc.time := (by simpa using hx : fc.time = x).symm
    rw [hbt] at hy
    have hye := head?_map_range' _ rs 0 y hy
    have : y = od := by rw [hye]; norm_num
    rw [hxe, this]
    exact hfcod
  refine ⟨?_, ?_, ?_, ?_⟩
  · rw [hunfold]
    exact setLastPriceZero_ne_nil _ happne
  · rw [hunfold]
    exact setLastPriceZero_last_price _ happne _
  · intro hd
    have hddod : (0 : ℚ) ≤ duration - od := by linarith
    have hbchain : List.Chain' (· ≤ ·) (timesQ body) := by
      rw [hbt]
      refine chain'_le_map_range' _ (fun k => ?_) rs 0
      have hstep := natDiv_mono k rs
      push_cast
      nlinarith
    rw [hunfold, timesQ_setLastPriceZero, timesQ_append]
    exact List.chain'_append.mpr ⟨hchain, hbchain, hjunc⟩
  · intro q hq
    rw [hunfold] at hq
    obtain ⟨p, hp, ht, hd2⟩ := mem_setLastPriceZero _ q hq
    have hpday : p.day = p.time.floor + 1 := by
      rcases List.mem_append.mp hp with h1 | h2
      · exact (hmem p h1).1
      · rcases randMapRange_mem _ rs 0 op.2.step p h2 with ⟨j, r', he⟩
        rw [he]
        rfl
    rw [hd2, hpday, ht]

lemma Rng.InRange.step {r : Rng} (hr : r.InRange) : r.step.InRange := fun n => hr n

lemma chainTime_of_timesQ (l : List PricePoint) (h : List.Chain' (· ≤ ·) (timesQ l)) :
    List.Chain' (fun p q : PricePoint => p.time ≤ q.time) l :=
  (List.chain'_map (fun p : PricePoint => p.time)).mp h

/-- Claim C1 (amended): for every `generateChart` round (any draws in `[0,1)`),
the price-point sequence is non-empty, its final point has price exactly 0, and
every point satisfies `day = floor(time) + 1`; for every integer duration of at
least 3 seconds (in particular the 15-18 s durations the controller uses), the
`time` field is non-decreasing across the sequence.  (For durations below 3 s
the opening-chaos duration, drawn from `[1.5, 3)`, can exceed the round
duration, making the body-phase times decrease; see the counterexample.) -/
theorem C1_round_invariants (rexp : ℚ → ℚ) (durationSeconds : ℕ) (r : Rng)
    (hr : r.InRange) :
    (generateChart rexp durationSeconds r).1.pricePoints ≠ [] ∧
    (((generateChart rexp durationSeconds r).1.pricePoints).getLastD ⟨0, 1, 1⟩).price = 0 ∧
    (3 ≤ durationSeconds →
      List.Chain' (fun p q : PricePoint => p.time ≤ q.time)
        (generateChart rexp durationSeconds r).1.pricePoints) ∧
    ∀ p ∈ (generateChart rexp durationSeconds r).1.pricePoints, p.day = ⌊p.time⌋ + 1 := by
  have hr0 : r.step.InRange := hr.step
  have hcast : ∀ h3 : 3 ≤ durationSeconds, (3 : ℚ) ≤ (durationSeconds : ℚ) := by
    intro h3; exact_mod_cast h3
  rcases hsel : selectRoundType r.take with _ | _ | _ | _
  · simp only [generateChart, hsel]
    obtain ⟨h1, h2, h3, h4⟩ :=
      generateInstantLoss_facts rexp (durationSeconds * 10) (durationSeconds : ℚ) r.step hr0
    refine ⟨h1, h2, fun hd => chainTime_of_timesQ _ (h3 (hcast hd)), fun p hp => ?_⟩
    rw [← ratFloor_eq_intFloor]
    exact h4 p hp
  · simp only [generateChart, hsel]
    obtain ⟨h1, h2, h3, h4⟩ :=
      generatePeakCurve_facts (durationSeconds * 10) (durationSeconds : ℚ)
        (random 1.1 1.3 r.step.take) r.step.step hr0.step
    refine ⟨h1, h2, fun hd => chainTime_of_timesQ _ (h3 (hcast hd)), fun p hp => ?_⟩
    rw [← ratFloor_eq_intFloor]
    exact h4 p hp
  · simp only [generateChart, hsel]
    obtain ⟨h1, h2, h3, h4⟩ :=
      generatePeakCurve_facts (durationSeconds * 10) (durationSeconds : ℚ)
        (random 1.5 2.0 r.step.take) r.step.step hr0.step
    refine ⟨h1, h2, fun hd => chainTime_of_timesQ _ (h3 (hcast hd)), fun p hp => ?_⟩
    rw [← ratFloor_eq_intFloor]
    exact h4 p hp
  · simp only [generateChart, hsel]
    obtain ⟨h1, h2, h3, h4⟩ :=
      generatePeakCurve_facts (durationSeconds * 10) (durationSeconds : ℚ)
        (random 3.0 5.0 r.step.take) r.step.step hr0.step
    refine ⟨h1, h2, fun hd => chainTime_of_timesQ _ (h3 (hcast hd)), fun p hp => ?_⟩
    rw [← ratFloor_eq_intFloor]
    exact h4 p hp

section

attribute [local semireducible] Rat.add Rat.mul Rat.inv Rat.sub Rat.ofScientific

set_option maxRecDepth 100000

/-- At duration 2 s with the `cexStream` draws, the generated round's point 18
(first body sample after the 2.5 s opening) sits at time 2.5 while point 19
sits at time 7/3 — the times decrease. -/
lemma cexStream_times :
    ((generateChart (fun _ => 0) 2 ⟨cexStream, 0⟩).1.pricePoints.getD 18 ⟨0, 1, 1⟩).time <
      ((generateChart (fun _ => 0) 2 ⟨cexStream, 0⟩).1.pricePoints.getD 17 ⟨0, 1, 1⟩).time ∧
    17 + 1 < (generateChart (fun _ => 0) 2 ⟨cexStream, 0⟩).1.pricePoints.length := by
  decide

end

/-- Claim C1, counterexample: as stated over arbitrary durations the claim is
false — at duration 2 s, with round type `small_peak` and an opening-chaos
duration of 2.5 s, the `time` field of the generated round's price points is
not non-decreasing. -/
theorem C1_counterexample :
    ¬ List.Chain' (fun p q : PricePoint => p.time ≤ q.time)
      (generateChart (fun _ => 0) 2 ⟨cexStream, 0⟩).1.pricePoints := by
  intro h
  have hl := cexStream_times.2
  have h2 := List.chain'_iff_get.mp h 17 (by omega)
  have h1 := cexStream_times.1
  rw [List.getD_eq_getElem?_getD, List.getD_eq_getElem?_getD,
    List.getElem?_eq_getElem (by omega), List.getElem?_eq_getElem (by omega)] at h1
  simp only [List.get_eq_getElem, Option.getD_some] at h1 h2
  exact absurd h2 (not_le.mpr h1)

/-- Claim C1, witness: at duration 3 with the all-zero draw stream the round
invariants hold, including non-decreasing times. -/
theorem C1_witness :
    Rng.InRange ⟨fun _ => 0, 0⟩ ∧
    (generateChart (fun _ => 0) 3 ⟨fun _ => 0, 0⟩).1.pricePoints ≠ [] ∧
    (((generateChart (fun _ => 0) 3 ⟨fun _ => 0, 0⟩).1.pricePoints).getLastD ⟨0, 1, 1⟩).price
      = 0 ∧
    List.Chain' (fun p q : PricePoint => p.time ≤ q.time)
      (generateChart (fun _ => 0) 3 ⟨fun _ => 0, 0⟩).1.pricePoints :=
  ⟨fun _ => by norm_num,
    (C1_round_invariants (fun _ => 0) 3 ⟨fun _ => 0, 0⟩ (fun _ => by norm_num)).1,
    (C1_round_invariants (fun _ => 0) 3 ⟨fun _ => 0, 0⟩ (fun _ => by norm_num)).2.1,
    (C1_round_invariants (fun _ => 0) 3 ⟨fun _ => 0, 0⟩ (fun _ => by norm_num)).2.2.1
      (by norm_num)⟩

lemma foldl_add_amount (l : List Investment) : ∀ a : ℚ,
    l.foldl (fun acc inv => acc + inv.amount) a =
      a + ((l.map (fun inv => inv.amount)).sum) := by
  induction l with
  | nil => intro a; simp
  | cons x t ih => intro a; simp [ih (a + x.amount)]; ring

/-- Claim C5: if the round ends with positions still active (no cash-out),
settlement marks every position lost and returns outcome `loss`, profit equal
to minus the total staked amount, and multiplier 0. -/
theorem C5_settlement_loss (g : GCState)
    (h : InvestmentManager.hasActiveInvestments g.im = true) :
    (GameController.endRound g).1.im.investments =
      g.im.investments.map (fun inv => { inv with status := PStatus.lost }) ∧
    (GameController.endRound g).2.outcome = .loss ∧
    (GameController.endRound g).2.profit =
      -((g.im.investments.map (fun inv => inv.amount)).sum) ∧
    (GameController.endRound g).2.multiplier = 0 := by
  have hlen : g.im.investments.length ≠ 0 := by
    unfold InvestmentManager.hasActiveInvestments at h
    simp only [Bool.and_eq_true, decide_eq_true_eq] at h
    omega
  unfold GameController.endRound
  rw [h]
  simp only [if_true]
  unfold InvestmentManager.markAsLost
  rw [if_neg hlen]
  refine ⟨rfl, trivial, ?_, trivial⟩
  show -(g.im.investments.foldl (fun acc inv => acc + inv.amount) 0) = _
  rw [foldl_add_amount g.im.investments 0]
  ring

section

attribute [local semireducible] Rat.add Rat.mul Rat.inv Rat.sub Rat.ofScientific

/-- Claim C5, witness: with the $100 initial and $100 doubled positions still
active, settlement forfeits exactly $200 and marks both positions lost. -/
theorem C5_witness :
    InvestmentManager.hasActiveInvestments c5g.im = true ∧
    (GameController.endRound c5g).2.outcome = .loss ∧
    (GameController.endRound c5g).2.profit = -200 ∧
    (GameController.endRound c5g).2.multiplier = 0 ∧
    (GameController.endRound c5g).1.im.investments =
      [{ c5pos1 with status := PStatus.lost }, { c5pos2 with status := PStatus.lost }] :=
  ⟨by decide,
    (C5_settlement_loss c5g (by decide)).2.1,
    ((C5_settlement_loss c5g (by decide)).2.2.1).trans (by decide),
    (C5_settlement_loss c5g (by decide)).2.2.2,
    ((C5_settlement_loss c5g (by decide)).1).trans (by decide)⟩

end

/-- Claim C10: with an empty position list, `calculateCurrentProfit` returns
the all-zero snapshot for every price via the early return — the overall
multiplier is the literal constant 0, so no 0/0 division is evaluated and no
NaN can arise. -/
theorem C10_empty_positions (hdd hco : Bool) (currentPrice : ℚ) :
    InvestmentManager.calculateCurrentProfit ⟨[], hdd, hco⟩ currentPrice = ⟨0, 0, 0, 0, []⟩ ∧
    (InvestmentManager.calculateCurrentProfitM ⟨[], hdd, hco⟩ currentPrice).2 =
      ⟨[], hdd, hco⟩ :=
  ⟨rfl, rfl⟩

lemma profit_foldl (p : ℚ) : ∀ (l : List Investment) (a b : ℚ) (sn : List PosSnapshot),
    l.foldl (fun (acc : ℚ × ℚ × List PosSnapshot) (inv : Investment) =>
      (acc.1 + inv.amount, acc.2.1 + inv.amount * (p / inv.entryPrice),
        acc.2.2 ++ [⟨inv, p / inv.entryPrice, inv.amount * (p / inv.entryPrice),
          inv.amount * (p / inv.entryPrice) - inv.amount⟩])) (a, b, sn) =
    (a + (l.map (fun inv => inv.amount)).sum,
      b + (l.map (fun inv => inv.amount * (p / inv.entryPrice))).sum,
      sn ++ l.map (posSnapshotAt p)) := by
  intro l
  induction l with
  | nil => intro a b sn; simp
  | cons x t ih =>
    intro a b sn
    simp only [List.foldl_cons, List.map_cons, List.sum_cons, ih]
    refine congrArg₂ _ (by ring) (congrArg₂ _ (by ring) ?_)
    simp [posSnapshotAt]

/-- The value `calculateCurrentProfit` computes on a nonempty position list. -/
lemma calculateCurrentProfit_eq (s : IMState) (p : ℚ) (hne : s.investments.length ≠ 0) :
    InvestmentManager.calculateCurrentProfit s p =
      ⟨(s.investments.map (fun inv => inv.amount * (p / inv.entryPrice))).sum -
          (s.investments.map (fun inv => inv.amount)).sum,
        (s.investments.map (fun inv => inv.amount)).sum,
        (s.investments.map (fun inv => inv.amount * (p / inv.entryPrice))).sum,
        (s.investments.map (fun inv => inv.amount * (p / inv.entryPrice))).sum /
          (s.investments.map (fun inv => inv.amount)).sum,
        s.investments.map (posSnapshotAt p)⟩ := by
  simp only [InvestmentManager.calculateCurrentProfit]
  rw [if_neg hne]
  have hf := profit_foldl p s.investments 0 0 []
  simp only [zero_add, List.nil_append] at hf
  rw [hf]

/-- Claim C4: `calculateCurrentProfit` returns, for each position,
`multiplier = currentPrice / entryPrice`, `value = amount * multiplier` and
`profit = value - amount`; the totals are the sums of the per-position
amounts and values, `totalProfit = currentValue - totalInvested`, the overall
multiplier is `currentValue / totalInvested`, and the call leaves the manager
state unchanged. -/
theorem C4_profit_formulas (s : IMState) (currentPrice : ℚ) :
    (InvestmentManager.calculateCurrentProfit s currentPrice).positions =
      s.investments.map (posSnapshotAt currentPrice) ∧
    (InvestmentManager.calculateCurrentProfit s currentPrice).totalInvested =
      (s.investments.map (fun inv => inv.amount)).sum ∧
    (InvestmentManager.calculateCurrentProfit s currentPrice).currentValue =
      (s.investments.map (fun inv => inv.amount * (currentPrice / inv.entryPrice))).sum ∧
    (InvestmentManager.calculateCurrentProfit s currentPrice).totalProfit =
      (InvestmentManager.calculateCurrentProfit s currentPrice).currentValue -
        (InvestmentManager.calculateCurrentProfit s currentPrice).totalInvested ∧
    (InvestmentManager.calculateCurrentProfit s currentPrice).multiplier =
      (InvestmentManager.calculateCurrentProfit s currentPrice).currentValue /
        (InvestmentManager.calculateCurrentProfit s currentPrice).totalInvested ∧
    (InvestmentManager.calculateCurrentProfitM s currentPrice).2 = s := by
  rcases hlen : s.investments.length with _ | n
  · have hnil : s.investments = [] := List.length_eq_zero.mp hlen
    have he : InvestmentManager.calculateCurrentProfit s currentPrice = ⟨0, 0, 0, 0, []⟩ := by
      unfold InvestmentManager.calculateCurrentProfit
      rw [hnil]
      rfl
    rw [he, hnil]
    refine ⟨rfl, rfl, rfl, by norm_num, by norm_num, rfl⟩
  · have hne : s.investments.length ≠ 0 := by omega
    rw [calculateCurrentProfit_eq s currentPrice hne]
    exact ⟨rfl, rfl, rfl, rfl, rfl, rfl⟩

/-- On insufficient funds `deduct` returns the failure result and the state
unchanged. -/
lemma deduct_insufficient (s : BMState) (amount : ℚ) (reason : TxReason) (now : ℤ)
    (h : s.balance < amount) :
    BalanceManager.deduct s amount reason now =
      (s, ⟨false, some .insufficientFunds, s.balance, none⟩) := by
  unfold BalanceManager.deduct BalanceManager.hasSufficientFunds
  rw [decide_eq_false (not_le.mpr h)]
  rfl

/-- On sufficient funds `deduct` subtracts and records one entry. -/
lemma deduct_ok (s : BMState) (amount : ℚ) (reason : TxReason) (now : ℤ)
    (h : amount ≤ s.balance) :
    BalanceManager.deduct s amount reason now =
      ({ s with
          balance := s.balance - amount,
          transactionHistory :=
            if (s.transactionHistory ++
                [(⟨-amount, reason, now, s.balance - amount⟩ : LedgerEntry)]).length > 100 then
              (s.transactionHistory ++ [(⟨-amount, reason, now, s.balance - amount⟩ : LedgerEntry)]).drop 1
            else s.transactionHistory ++ [(⟨-amount, reason, now, s.balance - amount⟩ : LedgerEntry)] },
        ⟨true, none, s.balance - amount, some (-amount)⟩) := by
  unfold BalanceManager.deduct BalanceManager.hasSufficientFunds BalanceManager.recordTransaction
  rw [decide_eq_true (ge_iff_le.mpr h)]
  rfl

/-- Claim C7: `deduct(amount, reason)` fails with `InsufficientFunds` exactly
when `amount > balance`, and a failed deduction changes neither the balance
nor the transaction log; otherwise it subtracts the amount and appends exactly
one ledger entry (evicting the oldest entry only when the log exceeds 100
entries). -/
theorem C7_deduct (s : BMState) (amount : ℚ) (reason : TxReason) (now : ℤ) :
    ((BalanceManager.deduct s amount reason now).2.success = false ↔ amount > s.balance) ∧
    (amount > s.balance →
      (BalanceManager.deduct s amount reason now).1 = s ∧
      (BalanceManager.deduct s amount reason now).2.message = some .insufficientFunds) ∧
    (amount ≤ s.balance →
      (BalanceManager.deduct s amount reason now).1.balance = s.balance - amount ∧
      ((BalanceManager.deduct s amount reason now).1.transactionHistory =
          s.transactionHistory ++ [(⟨-amount, reason, now, s.balance - amount⟩ : LedgerEntry)] ∨
        (100 ≤ s.transactionHistory.length ∧
          (BalanceManager.deduct s amount reason now).1.transactionHistory =
            (s.transactionHistory ++ [(⟨-amount, reason, now, s.balance - amount⟩ : LedgerEntry)]).drop 1))) := by
  rcases le_or_lt amount s.balance with hle | hgt
  · rw [deduct_ok s amount reason now hle]
    refine ⟨by simp; linarith, fun h => absurd h (not_lt.mpr hle), fun _ => ⟨rfl, ?_⟩⟩
    show (if _ > 100 then _ else _) = _ ∨ _
    by_cases hlen : (s.transactionHistory ++
        [(⟨-amount, reason, now, s.balance - amount⟩ : LedgerEntry)]).length > 100
    · right
      constructor
      · rw [List.length_append, List.length_singleton] at hlen
        omega
      · show (if _ > 100 then _ else _) = _
        rw [if_pos hlen]
    · left
      rw [if_neg hlen]
  · rw [deduct_insufficient s amount reason now hgt]
    exact ⟨by simpa using hgt, fun _ => ⟨rfl, rfl⟩, fun h => absurd h (not_le.mpr hgt)⟩

/-- Claim C7, witness (Scenario E): `deduct(150)` at balance 100 fails with
`InsufficientFunds`, leaving the balance at 100 and the log empty. -/
theorem C7_witness :
    (150 : ℚ) > 100 ∧
    (BalanceManager.deduct ⟨100, 1000, []⟩ 150 .investment 0).2.success = false ∧
    (BalanceManager.deduct ⟨100, 1000, []⟩ 150 .investment 0).1 = ⟨100, 1000, []⟩ ∧
    (BalanceManager.deduct ⟨100, 1000, []⟩ 150 .investment 0).2.message =
      some .insufficientFunds :=
  ⟨by norm_num,
    (C7_deduct ⟨100, 1000, []⟩ 150 .investment 0).1.mpr (by norm_num),
    ((C7_deduct ⟨100, 1000, []⟩ 150 .investment 0).2.1 (by norm_num)).1,
    ((C7_deduct ⟨100, 1000, []⟩ 150 .investment 0).2.1 (by norm_num)).2⟩

/-- Claim C8: for every draw in `[0, 1)`, `selectRoundType` returns the first
bucket whose accumulated total is at least the draw (inclusive boundaries
resolving to the earlier bucket), and the post-loop fallback is unreachable. -/
theorem C8_selectRoundType (d : ℚ) (_h0 : 0 ≤ d) (h1 : d < 1) :
    selectRoundType d = selectRoundTypeSpec d ∧
    selectLoop d 0 ROUND_TYPES ≠ none := by
  have he : selectLoop d 0 ROUND_TYPES = some (selectRoundTypeSpec d) := by
    simp only [selectLoop, ROUND_TYPES, selectRoundTypeSpec]
    norm_num
    split_ifs <;> first | rfl | (exfalso; linarith)
  refine ⟨?_, ?_⟩
  · unfold selectRoundType
    rw [he]
    rfl
  · rw [he]
    simp

/-- Claim C8, witness: boundary draws 0.40 and 0.75 resolve to the earlier
bucket, and the fallback is not taken. -/
theorem C8_witness :
    (0 : ℚ) ≤ 0.40 ∧ (0.40 : ℚ) < 1 ∧
    selectRoundType 0.40 = .instant_loss ∧
    selectRoundType 0.75 = .small_peak ∧
    selectLoop 0.75 0 ROUND_TYPES ≠ none :=
  ⟨by norm_num, by norm_num,
    ((C8_selectRoundType 0.40 (by norm_num) (by norm_num)).1).trans
      (by norm_num [selectRoundTypeSpec]),
    ((C8_selectRoundType 0.75 (by norm_num) (by norm_num)).1).trans
      (by norm_num [selectRoundTypeSpec]),
    (C8_selectRoundType 0.75 (by norm_num) (by norm_num)).2⟩

/-- Price sampling never mutates controller state: folding any list of
animation-loop samples is the identity. -/
lemma applySamples_id (ts : List ℚ) (g : GCState) :
    GameController.applySamples g ts = g := by
  induction ts generalizing g with
  | nil => rfl
  | cons t rest ih => exact ih g

/-- Claim C3: a successful controller cash-out stores the profit snapshot
computed at the sampled price, later price samples leave the state unchanged,
and settlement reuses the stored snapshot verbatim (outcome `cashed_out`,
same totalProfit/multiplier/totalInvested/currentValue) without recomputing
it — `endRound` takes no price at all. -/
theorem C3_cashout_snapshot (g : GCState) (rd : Round) (elapsed : ℚ) (now : ℤ)
    (g' : GCState) (pd : ProfitData) (bal : ℚ)
    (hrd : g.currentRound = some rd)
    (h : GameController.cashOut g elapsed now = some (g', .ok pd bal))
    (ts : List ℚ) :
    g'.lastCashOutResult =
      some ⟨pd.totalProfit, pd.multiplier, pd.totalInvested, pd.currentValue⟩ ∧
    pd = InvestmentManager.calculateCurrentProfit g.im
      (getPriceAtTime rd.pricePoints elapsed) ∧
    GameController.applySamples g' ts = g' ∧
    (GameController.endRound g').2 =
      { outcome := .cashed_out, profit := pd.totalProfit, multiplier := pd.multiplier,
        totalInvested := some pd.totalInvested, currentValue := some pd.currentValue } := by
  unfold GameController.cashOut at h
  by_cases hst : g.state = GState.active
  · rw [if_neg (by simp [hst])] at h
    cases hact : InvestmentManager.hasActiveInvestments g.im with
    | false => rw [hact] at h; simp at h
    | true =>
      rw [hact] at h
      simp only [Bool.not_true, Bool.false_eq_true, if_false] at h
      rw [hrd] at h
      dsimp only at h
      set price := getPriceAtTime rd.pricePoints elapsed with hprice
      have hnz : g.im.investments.length ≠ 0 := by
        unfold InvestmentManager.hasActiveInvestments at hact
        simp only [Bool.and_eq_true, decide_eq_true_eq] at hact
        omega
      have hnco : g.im.hasCashedOut = false := by
        unfold InvestmentManager.hasActiveInvestments at hact
        simp only [Bool.and_eq_true, Bool.not_eq_true'] at hact
        exact hact.2
      have hco : InvestmentManager.cashOut g.im price =
          ({ g.im with
              hasCashedOut := true,
              investments := g.im.investments.map
                (fun inv => { inv with status := .cashed_out }) },
            .ok (InvestmentManager.calculateCurrentProfit g.im price)) := by
        unfold InvestmentManager.cashOut
        rw [if_neg hnz, hnco]
        rfl
      rw [hco] at h
      dsimp only at h
      simp only [Option.some.injEq, Prod.mk.injEq, GameController.CashOutRes.ok.injEq] at h
      obtain ⟨hg', hpd', hbal⟩ := h
      have hpd : pd = InvestmentManager.calculateCurrentProfit g.im price := hpd'.symm
      subst hg'
      subst hpd
      refine ⟨rfl, rfl, applySamples_id ts _, ?_⟩
      have hnact : InvestmentManager.hasActiveInvestments
          { g.im with
            hasCashedOut := true,
            investments := g.im.investments.map
              (fun inv => { inv with status := PStatus.cashed_out }) } = false := by
        unfold InvestmentManager.hasActiveInvestments
        simp
      unfold GameController.endRound
      rw [hnact]
      simp only [Bool.false_eq_true, if_false]
  · rw [if_pos hst] at h
    simp at h

section

attribute [local semireducible] Rat.add Rat.mul Rat.inv Rat.sub Rat.ofScientific

set_option maxRecDepth 10000

/-- Claim C3, witness: a concrete cash-out at t=5 stores the snapshot
(profit −50, multiplier 0.5) and settlement after further samples reuses it
verbatim. -/
theorem C3_witness :
    c3g.currentRound = some c3round ∧
    GameController.cashOut c3g 5 0 = some (c3after, .ok c3pd 950) ∧
    c3after.lastCashOutResult =
      some ⟨c3pd.totalProfit, c3pd.multiplier, c3pd.totalInvested, c3pd.currentValue⟩ ∧
    c3pd.totalProfit = -50 ∧ c3pd.multiplier = 1/2 ∧
    GameController.applySamples c3after [7, 9] = c3after ∧
    (GameController.endRound c3after).2 =
      { outcome := .cashed_out, profit := c3pd.totalProfit, multiplier := c3pd.multiplier,
        totalInvested := some c3pd.totalInvested, currentValue := some c3pd.currentValue } :=
  have h : GameController.cashOut c3g 5 0 = some (c3after, .ok c3pd 950) := by decide
  ⟨rfl, h,
    (C3_cashout_snapshot c3g c3round 5 0 c3after c3pd 950 rfl h [7, 9]).1,
    by decide, by decide,
    (C3_cashout_snapshot c3g c3round 5 0 c3after c3pd 950 rfl h [7, 9]).2.2.1,
    (C3_cashout_snapshot c3g c3round 5 0 c3after c3pd 950 rfl h [7, 9]).2.2.2⟩

end

/-- Claim C6: the controller's double-down succeeds only while `active` with
`canDoubleDown`, progress `elapsed/duration ≤ 0.70` and sufficient funds; at
progress exactly 0.71 (while active and double-down is otherwise permitted)
it fails with the too-late error and the state is returned unchanged; at
progress exactly 0.69 with sufficient funds it succeeds, deducting the bet
and appending the doubled position at the sampled price. -/
theorem C6_doubledown_gates (g : GCState) (rd : Round) (elapsed idv : ℚ) (now : ℤ)
    (hrd : g.currentRound = some rd) :
    (∀ (gg : GCState) (inv : Investment) (bal : ℚ),
      GameController.doubleDown g elapsed idv now = some (gg, .ok inv bal) →
      g.state = .active ∧ InvestmentManager.canDoubleDown g.im = true ∧
      elapsed / rd.duration ≤ 0.70 ∧ g.betAmount ≤ g.bm.balance) ∧
    (g.state = .active → InvestmentManager.canDoubleDown g.im = true →
      elapsed / rd.duration = 0.71 →
      GameController.doubleDown g elapsed idv now = some (g, .fail .tooLateToDoubleDown)) ∧
    (g.state = .active → InvestmentManager.canDoubleDown g.im = true →
      elapsed / rd.duration = 0.69 → g.betAmount ≤ g.bm.balance →
      GameController.doubleDown g elapsed idv now = some
        ({ g with
            bm := (BalanceManager.deduct g.bm g.betAmount .investment now).1,
            im := { g.im with
              investments := g.im.investments ++
                [⟨idv, g.betAmount, getPriceAtTime rd.pricePoints elapsed, elapsed,
                  elapsed.floor + 1, .active, .doubled⟩],
              hasDoubledDown := true } },
          .ok ⟨idv, g.betAmount, getPriceAtTime rd.pricePoints elapsed, elapsed,
              elapsed.floor + 1, .active, .doubled⟩
            (BalanceManager.deduct g.bm g.betAmount .investment now).1.balance) ∧
      (BalanceManager.deduct g.bm g.betAmount .investment now).1.balance =
        g.bm.balance - g.betAmount) := by
  refine ⟨?_, ?_, ?_⟩
  · intro gg inv bal h
    unfold GameController.doubleDown at h
    by_cases hst : g.state = GState.active
    · rw [if_neg (by simp [hst])] at h
      cases hcan : InvestmentManager.canDoubleDown g.im with
      | false => rw [hcan] at h; simp at h
      | true =>
        rw [hcan] at h
        simp only [Bool.not_true, Bool.false_eq_true, if_false] at h
        rw [hrd] at h
        dsimp only at h
        by_cases hprog : elapsed / rd.duration > 0.70
        · rw [if_pos hprog] at h; simp at h
        · rw [if_neg hprog] at h
          cases hsf : BalanceManager.hasSufficientFunds g.bm g.betAmount with
          | false => rw [hsf] at h; simp at h
          | true =>
            have hfund : g.betAmount ≤ g.bm.balance := by
              unfold BalanceManager.hasSufficientFunds at hsf
              simpa using of_decide_eq_true hsf
            exact ⟨hst, rfl, not_lt.mp hprog, hfund⟩
    · rw [if_pos hst] at h
      simp at h
  · intro hst hcan hprog
    unfold GameController.doubleDown
    rw [if_neg (by simp [hst]), hcan]
    simp only [Bool.not_true, Bool.false_eq_true, if_false]
    rw [hrd]
    dsimp only
    rw [hprog, if_pos (by norm_num)]
  · intro hst hcan hprog hfund
    have hc := hcan
    unfold InvestmentManager.canDoubleDown at hc
    simp only [Bool.and_eq_true, Bool.not_eq_true', decide_eq_true_eq] at hc
    obtain ⟨⟨hdd0, hco0⟩, hlen0⟩ := hc
    refine ⟨?_, by rw [deduct_ok g.bm g.betAmount .investment now hfund]⟩
    unfold GameController.doubleDown
    rw [if_neg (by simp [hst]), hcan]
    simp only [Bool.not_true, Bool.false_eq_true, if_false]
    rw [hrd]
    dsimp only
    rw [hprog, if_neg (by norm_num)]
    rw [BalanceManager.hasSufficientFunds, decide_eq_true (ge_iff_le.mpr hfund)]
    simp only [Bool.not_true, Bool.false_eq_true, if_false]
    rw [deduct_ok g.bm g.betAmount .investment now hfund]
    dsimp only
    simp only [Bool.not_true, Bool.false_eq_true, if_false]
    have hdd : InvestmentManager.doubleDown g.im g.betAmount
        (getPriceAtTime rd.pricePoints elapsed) elapsed idv =
        ({ g.im with
            investments := g.im.investments ++
              [⟨idv, g.betAmount, getPriceAtTime rd.pricePoints elapsed, elapsed,
                elapsed.floor + 1, .active, .doubled⟩],
            hasDoubledDown := true },
          .ok ⟨idv, g.betAmount, getPriceAtTime rd.pricePoints elapsed, elapsed,
            elapsed.floor + 1, .active, .doubled⟩) := by
      unfold InvestmentManager.doubleDown
      rw [if_neg (by simp [hdd0]), if_neg (by simp [hco0]), if_neg (by omega)]
    rw [hdd]

section

attribute [local semireducible] Rat.add Rat.mul Rat.inv Rat.sub Rat.ofScientific

set_option maxRecDepth 10000

/-- Claim C6, witness (Scenario D): at elapsed 7.1 of a 10 s round
(progress 0.71) double-down fails with the too-late error and the state is
unchanged; at elapsed 6.9 (progress 0.69) with sufficient funds it succeeds,
deducting the $100 bet and appending the doubled position at the sampled
price. -/
theorem C6_witness :
    c6g.state = .active ∧ InvestmentManager.canDoubleDown c6g.im = true ∧
    (7.1 : ℚ) / c6round.duration = 0.71 ∧
    GameController.doubleDown c6g 7.1 0 0 = some (c6g, .fail .tooLateToDoubleDown) ∧
    (6.9 : ℚ) / c6round.duration = 0.69 ∧
    GameController.doubleDown c6g 6.9 0 0 = some
      ({ c6g with
          bm := (BalanceManager.deduct c6g.bm c6g.betAmount .investment 0).1,
          im := { c6g.im with
            investments := c6g.im.investments ++
              [⟨0, c6g.betAmount, getPriceAtTime c6round.pricePoints (6.9 : ℚ), (6.9 : ℚ),
                (6.9 : ℚ).floor + 1, .active, .doubled⟩],
            hasDoubledDown := true } },
        .ok ⟨0, c6g.betAmount, getPriceAtTime c6round.pricePoints (6.9 : ℚ), (6.9 : ℚ),
            (6.9 : ℚ).floor + 1, .active, .doubled⟩
          (BalanceManager.deduct c6g.bm c6g.betAmount .investment 0).1.balance) ∧
    (BalanceManager.deduct c6g.bm c6g.betAmount .investment 0).1.balance =
      c6g.bm.balance - c6g.betAmount :=
  ⟨rfl, by decide, by decide,
    (C6_doubledown_gates c6g c6round 7.1 0 0 rfl).2.1 rfl (by decide) (by decide),
    by decide,
    ((C6_doubledown_gates c6g c6round 6.9 0 0 rfl).2.2 rfl (by decide) (by decide)
      (by decide)).1,
    ((C6_doubledown_gates c6g c6round 6.9 0 0 rfl).2.2 rfl (by decide) (by decide)
      (by decide)).2⟩

end

lemma isBracket_cons_succ (a : PricePoint) (l : List PricePoint) (t : ℚ) (j : ℕ) :
    isBracket (a :: l) t (j + 1) ↔ isBracket l t j := by
  unfold isBracket
  rw [List.getD_cons_succ, List.getD_cons_succ, List.length_cons]
  constructor
  · rintro ⟨h1, h2⟩
    exact ⟨by omega, h2⟩
  · rintro ⟨h1, h2⟩
    exact ⟨by omega, h2⟩

lemma findBracket_first : ∀ (pts : List PricePoint) (t : ℚ) (i : ℕ),
    isFirstBracket pts t i →
    findBracket pts t = some (pts.getD i dummyPt, pts.getD (i + 1) dummyPt) := by
  intro pts
  induction pts with
  | nil =>
    intro t i h
    have := h.1.1
    simp only [List.length_nil] at this
    omega
  | cons a rest ih =>
    intro t i h
    cases rest with
    | nil =>
      have := h.1.1
      simp only [List.length_cons, List.length_nil] at this
      omega
    | cons b rest2 =>
      cases i with
      | zero =>
        obtain ⟨⟨hlen, h1, h2⟩, _⟩ := h
        rw [List.getD_cons_zero] at h1
        rw [List.getD_cons_succ, List.getD_cons_zero] at h2
        unfold findBracket
        rw [if_pos ⟨h1, h2⟩]
        rfl
      | succ i2 =>
        obtain ⟨hbr, hmin⟩ := h
        have hnb0 : ¬ isBracket (a :: b :: rest2) t 0 := hmin 0 (by omega)
        have hcond : ¬ (a.time ≤ t ∧ b.time > t) := by
          intro hc
          exact hnb0 ⟨by simp, by simpa using hc.1, by simpa using hc.2⟩
        unfold findBracket
        rw [if_neg hcond]
        rw [List.getD_cons_succ, List.getD_cons_succ]
        refine ih t i2 ⟨(isBracket_cons_succ a _ t i2).mp hbr, fun j hj => ?_⟩
        intro hb
        exact hmin (j + 1) (by omega) ((isBracket_cons_succ a _ t j).mpr hb)

/-- Claim C2: on a non-empty point list whose final price is 0,
`getPriceAtTime` is deterministic; it returns the first point's price for
`t ≤ 0`; it returns 0 for `t` past the last time; and for `0 < t` before the
last time it linearly interpolates at the first bracketing pair (duplicate
timestamps resolving to the first such pair). -/
theorem C2_getPriceAtTime (pts : List PricePoint) (t : ℚ) (i : ℕ)
    (hne : pts ≠ []) (hz : (pts.getLastD dummyPt).price = 0) :
    getPriceAtTime pts t = getPriceAtTime pts t ∧
    (t ≤ 0 → getPriceAtTime pts t = (pts.headD dummyPt).price) ∧
    (0 < t → (pts.getLastD dummyPt).time ≤ t → getPriceAtTime pts t = 0) ∧
    (0 < t → t < (pts.getLastD dummyPt).time → isFirstBracket pts t i →
      getPriceAtTime pts t = interpAt pts t i) := by
  match pts with
  | [] => exact absurd rfl hne
  | p0 :: rest =>
    have hird : ∀ x y : PricePoint, (p0 :: rest).getLastD x = (p0 :: rest).getLastD y :=
      fun x y => getLastD_irrel p0 rest x y
    refine ⟨rfl, ?_, ?_, ?_⟩
    · intro ht
      unfold getPriceAtTime
      dsimp only
      rw [if_pos ht]
      rfl
    · intro ht0 htl
      unfold getPriceAtTime
      dsimp only
      rw [if_neg (by linarith), if_pos (by rw [hird p0 dummyPt]; exact htl)]
      rw [hird p0 dummyPt]
      exact hz
    · intro ht0 htl hfb
      unfold getPriceAtTime
      dsimp only
      rw [if_neg (by linarith), if_neg (by rw [hird p0 dummyPt]; linarith)]
      rw [findBracket_first (p0 :: rest) t i hfb]
      rfl

section

attribute [local semireducible] Rat.add Rat.mul Rat.inv Rat.sub Rat.ofScientific

/-- Claim C2, witness: on the concrete two-point curve, sampling at t=0
returns the first price, sampling past the last time returns 0, and sampling
at t=1/2 interpolates the first bracketing pair, giving 1/2. -/
theorem C2_witness :
    c2pts ≠ [] ∧ (c2pts.getLastD dummyPt).price = 0 ∧
    getPriceAtTime c2pts 0 = (c2pts.headD dummyPt).price ∧
    getPriceAtTime c2pts 2 = 0 ∧
    isFirstBracket c2pts (1/2) 0 ∧
    getPriceAtTime c2pts (1/2) = interpAt c2pts (1/2) 0 ∧
    getPriceAtTime c2pts (1/2) = 1/2 :=
  ⟨by decide, by decide,
    (C2_getPriceAtTime c2pts 0 0 (by decide) (by decide)).2.1 (le_refl 0),
    (C2_getPriceAtTime c2pts 2 0 (by decide) (by decide)).2.2.1 (by norm_num) (by decide),
    by decide,
    (C2_getPriceAtTime c2pts (1/2) 0 (by decide) (by decide)).2.2.2 (by norm_num) (by decide)
      (by decide),
    by decide⟩

end

/-- The source's swing loop computes exactly the specification's recurrence. -/
lemma chaosLoop_eq_claimLoop : ∀ (fuel k : ℕ) (price dir : ℚ) (r : Rng),
    (chaosLoop fuel k price dir r).1 = chaosClaimLoop fuel k price dir r := by
  intro fuel
  induction fuel with
  | zero => intro k price dir r; rfl
  | succ n ih =>
    intro k price dir r
    have hpe : price + price * (random 0.10 0.35 r.take) * dir =
        price * (1 + dir * random 0.10 0.35 r.take) := by ring
    simp only [chaosLoop, chaosClaimLoop]
    rw [hpe]
    exact congrArg _ (ih (k + 1) _ _ r.step.step)

lemma getD_append_left (l1 l2 : List PricePoint) (i : ℕ) (h : i < l1.length)
    (d : PricePoint) : (l1 ++ l2).getD i d = l1.getD i d := by
  rw [List.getD_eq_getElem?_getD, List.getD_eq_getElem?_getD, List.getElem?_append_left h]

lemma getD_setLastPriceZero : ∀ (l : List PricePoint) (i : ℕ), i < l.length - 1 →
    (setLastPriceZero l).getD i dummyPt = l.getD i dummyPt := by
  intro l
  match l with
  | [] => intro i h; simp at h
  | [p] => intro i h; simp at h
  | p :: q :: rest =>
    intro i h
    show (p :: setLastPriceZero (q :: rest)).getD i dummyPt = _
    cases i with
    | zero => rfl
    | succ j =>
      rw [List.getD_cons_succ, List.getD_cons_succ]
      apply getD_setLastPriceZero (q :: rest) j
      simp only [List.length_cons] at h ⊢
      omega

/-- Claim C9 (amended): the opening chaos duration is drawn uniformly from
`[1.5, 3.0)` (not `[1.5, 2.5]`); the phase starts at price 1.00, ticks every
150 ms multiplying the price by `(1 ± uniform(0.10, 0.35))` per the direction
sign with a clamp to `[0.25, 1.60]` and a 0.70-probability direction flip —
the source loop equals that recurrence verbatim — and both curve generators
emit identical opening-phase points for the same draws. -/
theorem C9_opening_chaos (r : Rng) (hr : r.InRange) (d pm : ℚ) (rexp : ℚ → ℚ)
    (samples : ℕ) :
    (1.5 ≤ (openingChaosPhase r).1.1 ∧ (openingChaosPhase r).1.1 < 3) ∧
    (∀ u : ℚ, 0 ≤ u → u < 1 →
      0.10 ≤ random 0.10 0.35 u ∧ random 0.10 0.35 u < 0.35) ∧
    ((generateOpeningChaos d r).1 =
      ⟨0, 1⟩ :: chaosClaimLoop (((d / 0.15).floor).toNat) 1 1
        (if r.take > 0.5 then 1 else -1) r.step) ∧
    (∀ i, i < (openingPhasePoints samples d r).1.1.length - 1 →
      (generateInstantLoss rexp samples d r).1.getD i dummyPt =
          (openingPhasePoints samples d r).1.1.getD i dummyPt ∧
        (generatePeakCurve samples d pm r).1.getD i dummyPt =
          (openingPhasePoints samples d r).1.1.getD i dummyPt) := by
  obtain ⟨hu0, hu1⟩ := hr r.i
  refine ⟨⟨?_, ?_⟩, ?_, ?_, ?_⟩
  · show (1.5 : ℚ) ≤ random 1.5 3.0 r.take
    rw [random, Rng.take]
    nlinarith
  · show random 1.5 3.0 r.take < 3
    rw [random, Rng.take]
    nlinarith
  · intro u h0 h1
    rw [random]
    constructor <;> nlinarith
  · unfold generateOpeningChaos
    exact congrArg _ (chaosLoop_eq_claimLoop _ 1 1 _ r.step)
  · intro i hi
    constructor
    · show (setLastPriceZero ((openingPhasePoints samples d r).1.1 ++ _)).getD i dummyPt = _
      rw [getD_setLastPriceZero _ i (by rw [List.length_append]; omega),
        getD_append_left _ _ i (by omega)]
    · show (setLastPriceZero ((openingPhasePoints samples d r).1.1 ++ _)).getD i dummyPt = _
      rw [getD_setLastPriceZero _ i (by rw [List.length_append]; omega),
        getD_append_left _ _ i (by omega)]

section

attribute [local semireducible] Rat.add Rat.mul Rat.inv Rat.sub Rat.ofScientific

/-- Claim C9, counterexample: with draw 5/6 the opening-chaos duration is
2.75 s — outside the claimed `[1.5, 2.5]` range (the source draws it from
`random(1.5, 3.0)`). -/
theorem C9_counterexample :
    (openingChaosPhase ⟨c9stream, 0⟩).1.1 = 11/4 ∧
    ¬ ((openingChaosPhase ⟨c9stream, 0⟩).1.1 ≤ 5/2) := by
  decide

end

/-- Claim C9, witness: at the all-zero draw stream the opening duration is in
`[1.5, 3)` and the generated chaos points equal the specification recurrence. -/
theorem C9_witness :
    Rng.InRange ⟨fun _ => 0, 0⟩ ∧
    1.5 ≤ (openingChaosPhase ⟨fun _ => 0, 0⟩).1.1 ∧
    (openingChaosPhase ⟨fun _ => 0, 0⟩).1.1 < 3 ∧
    (generateOpeningChaos 3 ⟨fun _ => 0, 0⟩).1 =
      ⟨0, 1⟩ :: chaosClaimLoop ((((3 : ℚ) / 0.15).floor).toNat) 1 1
        (if (⟨fun _ => 0, 0⟩ : Rng).take > 0.5 then 1 else -1)
        (⟨fun _ => 0, 0⟩ : Rng).step :=
  ⟨fun _ => by norm_num,
    (C9_opening_chaos ⟨fun _ => 0, 0⟩ (fun _ => by norm_num) 3 1.2 (fun _ => 0) 30).1.1,
    (C9_opening_chaos ⟨fun _ => 0, 0⟩ (fun _ => by norm_num) 3 1.2 (fun _ => 0) 30).1.2,
    (C9_opening_chaos ⟨fun _ => 0, 0⟩ (fun _ => by norm_num) 3 1.2 (fun _ => 0) 30).2.2.1⟩
end RugPull
